import Mathlib

/-!
Verification of the biscore-addon guide-extraction pipeline.

The Python sources embedded here are:
  scripts/parse_wowhead_html.py    (numeric-taxonomy parser, merge_slot_maps)
  scripts/extract_wowhead_items.py (textual-taxonomy extractor)

Pure functions are translated to Lean functions; Python regex scans are
modelled by explicit character-list scanners with the same matching
semantics (leftmost, non-greedy where the pattern is lazy); Python dicts
are modelled as association lists with first-match lookup; heap mutation
(for the frame claim about merge_slot_maps) is modelled by an explicit
store of list/dict objects addressed by numeric references.
-/

namespace Biscore

/-! ## Generic list helpers -/

/-- Append every element of xs to acc in order, skipping elements already
present.  This is the common Python idiom
for x in xs: if x not in acc: acc.append(x)
used throughout both extractor modules. -/
def addUnique {α : Type} [DecidableEq α] (acc : List α) (xs : List α) : List α :=
  xs.foldl (fun a x => if x ∈ a then a else a ++ [x]) acc

/-- Order-preserving deduplication keeping first occurrences. -/
def dedupKeep {α : Type} [DecidableEq α] (xs : List α) : List α :=
  addUnique [] xs

/-- First-match association-list lookup; models Python dict lookup
(dict keys are unique, so first match is the match). -/
def alookup {κ β : Type} [DecidableEq κ] : List (κ × β) → κ → Option β
  | [], _ => none
  | (k, v) :: rest, s => if s = k then some v else alookup rest s

/-- Models Python d[k] = v on an association list: replace the value of an
existing key in place, otherwise append the new key at the end
(dict insertion order). -/
def assocSet {β : Type} : List (Nat × β) → Nat → β → List (Nat × β)
  | [], k, v => [(k, v)]
  | (a, b) :: rest, k, v => if a = k then (k, v) :: rest else (a, b) :: assocSet rest k v

/-! ## Slot maps and merge_slot_maps (parse_wowhead_html.py lines 309-323) -/

/-- A slot map: numeric slot id to ranked item-id list (Python Dict[int, List[int]]). -/
abbrev SlotMap := List (Nat × List Nat)

def lookupSM (m : SlotMap) (s : Nat) : Option (List Nat) := alookup m s

/-- Python m.get(s, []). -/
def getSM (m : SlotMap) (s : Nat) : List Nat := (lookupSM m s).getD []

def slotKeys (m : SlotMap) : List Nat := m.map Prod.fst

/-- The per-slot body of merge_slot_maps: ordered = [];
append current items skipping duplicates, then prior items skipping
duplicates (lines 314-320). -/
def mergedListFor (prev curr : SlotMap) (s : Nat) : List Nat :=
  addUnique (addUnique [] (getSM curr s)) (getSM prev s)

/-- merge_slot_maps (lines 309-323).  The source iterates over
set(prev_slots) | set(curr_slots) in unspecified Python set order and only
stores a slot when its merged list is nonempty (the if ordered: guard on
line 321); lookup semantics are independent of the iteration order, which
is modelled here as prev keys followed by curr keys, deduplicated. -/
def merge_slot_maps (prev curr : SlotMap) : SlotMap :=
  (dedupKeep (slotKeys prev ++ slotKeys curr)).filterMap
    (fun s =>
      if mergedListFor prev curr s = [] then none
      else some (s, mergedListFor prev curr s))

/-! ## Cross-phase sequential merging (parse_wowhead_html.py main, lines 418-435)

main() keeps prev_slot_map and for each later phase computes
slot_map = merge_slot_maps(prev_slot_map, slot_map): a left fold of
merge_slot_maps over the per-phase maps with the accumulated map passed
as the prior argument. -/

def seqMergeMaps : List SlotMap → SlotMap
  | [] => []
  | m :: ms => ms.foldl merge_slot_maps m

/-- Per-slot view of one merge step: current-phase list deduplicated first,
then the accumulated items not already present. -/
def stepMergeList (accM lk : List Nat) : List Nat :=
  addUnique (dedupKeep lk) accM

/-- Per-slot view of the sequential merge across phases. -/
def seqMergeList : List (List Nat) → List Nat
  | [] => []
  | l :: ls => ls.foldl stepMergeList l

/-- Modelled from the claim text of C4 (spec section 4.5): group the union
of all items by the most recent phase mentioning them, most recent phase
first, keeping each phase's original intra-phase order.  Defined over the
reversed phase list: the head of the reversed list is the most recent
phase; its items (deduplicated, in order) come first, and older items
already present in it are dropped. -/
def specGroupGo {α : Type} [DecidableEq α] : List (List α) → List α
  | [] => []
  | l :: rest => dedupKeep l ++ (specGroupGo rest).filter (fun x => decide (x ∉ l))

/-- Modelled from the claim text of C4: the claimed merged list for a
chronological sequence of per-phase item lists. -/
def specMergedList {α : Type} [DecidableEq α] (ls : List (List α)) : List α :=
  specGroupGo ls.reverse

/-! ## Character-scanner primitives

These model the handful of Python re patterns used by the extractors.
Every scanner works on List Char; a matcher takes the text at the current
position and returns the captured payload together with the unconsumed
remainder, or none when the pattern does not match at this position.
re.finditer / re.findall are modelled by a linear scan that tries the
matcher at each position and, on success, continues after the consumed
text (leftmost, non-overlapping, exactly as the re module scans). -/

/-- Case-sensitive literal: if lit leads cs, return the remainder. -/
def leadsWithEx : List Char → List Char → Option (List Char)
  | [], cs => some cs
  | _ :: _, [] => none
  | p :: ps, c :: cs => if p = c then leadsWithEx ps cs else none

/-- Case-insensitive literal (for patterns compiled with re.IGNORECASE). -/
def leadsWithCI : List Char → List Char → Option (List Char)
  | [], cs => some cs
  | _ :: _, [] => none
  | p :: ps, c :: cs => if p.toLower = c.toLower then leadsWithCI ps cs else none

/-- Scan up to (not including) the first occurrence of the given character;
return the text before it and the remainder after it.  Models a greedy
run of a negated character class followed by the character itself, for
instance the attribute part of a bracket tag. -/
def takeUntilChar (t : Char) : List Char → Option (List Char × List Char)
  | [] => none
  | c :: cs =>
    if c = t then some ([], cs)
    else
      match takeUntilChar t cs with
      | some (pre, rest) => some (c :: pre, rest)
      | none => none

/-- Lazy scan up to the first case-insensitive occurrence of a closing
literal; returns the skipped text and the remainder after the literal.
Models a lazy dot-all body followed by a literal closing tag. -/
def takeUntilLitCI (close : List Char) : List Char → Option (List Char × List Char)
  | [] =>
    match leadsWithCI close [] with
    | some rest => some ([], rest)
    | none => none
  | c :: cs =>
    match leadsWithCI close (c :: cs) with
    | some rest => some ([], rest)
    | none =>
      match takeUntilLitCI close cs with
      | some (pre, rest) => some (c :: pre, rest)
      | none => none

/-- Greedy run of decimal digits. -/
def takeDigits : List Char → List Char × List Char
  | [] => ([], [])
  | c :: cs =>
    if c.isDigit then
      match takeDigits cs with
      | (ds, rest) => (c :: ds, rest)
    else ([], c :: cs)

def digitsToNat (ds : List Char) : Nat :=
  ds.foldl (fun n c => n * 10 + (c.toNat - 48)) 0

/-- Python str whitespace class (ASCII part of regex backslash-s and of
str.strip): space, tab, newline, carriage return, form feed, vertical tab. -/
def isWS (c : Char) : Bool :=
  c = ' ' || c = '\t' || c = '\n' || c = '\r' || c = Char.ofNat 11 || c = Char.ofNat 12

def dropWS (cs : List Char) : List Char := cs.dropWhile isWS

/-- Python str.strip(). -/
def stripWS (cs : List Char) : List Char :=
  ((cs.dropWhile isWS).reverse.dropWhile isWS).reverse

/-- Collapse every whitespace run to a single space; the Bool argument
remembers whether the previous character was whitespace.  Models
re.sub of a whitespace-plus pattern with a single space. -/
def wsCollapseAux : Bool → List Char → List Char
  | _, [] => []
  | prevWS, c :: cs =>
    if isWS c then
      if prevWS then wsCollapseAux true cs
      else ' ' :: wsCollapseAux true cs
    else c :: wsCollapseAux false cs

def wsCollapse (cs : List Char) : List Char := wsCollapseAux false cs

/-- Python str.lower (ASCII behaviour). -/
def pyLower (s : String) : String := String.mk (s.toList.map Char.toLower)

/-- Python substring containment (needle in haystack): does the needle
lead the haystack at this position? -/
def hasLead : List Char → List Char → Bool
  | [], _ => true
  | _ :: _, [] => false
  | p :: ps, c :: cs => p = c && hasLead ps cs

def hasSub (needle : List Char) : List Char → Bool
  | [] => needle.isEmpty
  | c :: cs => hasLead needle (c :: cs) || hasSub needle cs

/-- Python needle in haystack on strings. -/
def substrS (needle hay : String) : Bool := hasSub needle.toList hay.toList

/-- re.search: first match of the matcher anywhere in the text. -/
def searchFirst {α : Type} (tryM : List Char → Option (α × List Char)) :
    List Char → Option α
  | [] =>
    match tryM [] with
    | some (a, _) => some a
    | none => none
  | c :: cs =>
    match tryM (c :: cs) with
    | some (a, _) => some a
    | none => searchFirst tryM cs

/-- re.findall / finditer payloads: all leftmost non-overlapping matches.
Fuel is the length of the text plus one; every loop iteration consumes at
least one character (all our patterns begin with a mandatory literal), so
the fuel never runs out. -/
def findAllAux {α : Type} (tryM : List Char → Option (α × List Char)) :
    Nat → List Char → List α
  | 0, _ => []
  | Nat.succ fuel, cs =>
    match tryM cs with
    | some (a, rest) => a :: findAllAux tryM fuel rest
    | none =>
      match cs with
      | [] => []
      | _ :: cs' => findAllAux tryM fuel cs'

def findAll {α : Type} (tryM : List Char → Option (α × List Char)) (cs : List Char) : List α :=
  findAllAux tryM (cs.length + 1) cs

/-- finditer with match positions: (start, end, payload), end exclusive. -/
def findAllPosAux {α : Type} (tryM : List Char → Option (α × List Char)) :
    Nat → Nat → List Char → List (Nat × Nat × α)
  | 0, _, _ => []
  | Nat.succ fuel, pos, cs =>
    match tryM cs with
    | some (a, rest) =>
      (pos, pos + (cs.length - rest.length), a) ::
        findAllPosAux tryM fuel (pos + (cs.length - rest.length)) rest
    | none =>
      match cs with
      | [] => []
      | _ :: cs' => findAllPosAux tryM fuel (pos + 1) cs'

def findAllPos {α : Type} (tryM : List Char → Option (α × List Char)) (cs : List Char) :
    List (Nat × Nat × α) :=
  findAllPosAux tryM (cs.length + 1) 0 cs

/-! ## extract_wowhead_items.py -/

namespace EI

/-- Helper for the tag-stripping pattern: one or more non-bracket
characters followed by the closing bracket; returns the remainder after
the closing bracket. -/
def tagAfterRest : List Char → Option (List Char)
  | [] => none
  | ']' :: r => some r
  | _ :: r => tagAfterRest r

/-- After an opening bracket: the body must be nonempty and must not start
with the closing bracket. -/
def tagBodyRest : List Char → Option (List Char)
  | [] => none
  | ']' :: _ => none
  | _ :: rest => tagAfterRest rest

/-- TAG_RE.sub applied with the empty replacement (clean_text, line 148):
delete every bracket tag, keep unmatched brackets.  Fuel is the text
length plus one; every step consumes at least one character. -/
def stripTagsAux : Nat → List Char → List Char
  | 0, cs => cs
  | Nat.succ _, [] => []
  | Nat.succ fuel, c :: cs =>
    if c = '[' then
      match tagBodyRest cs with
      | some rest => stripTagsAux fuel rest
      | none => c :: stripTagsAux fuel cs
    else c :: stripTagsAux fuel cs

/-- clean_text (lines 147-149): strip bracket tags, collapse whitespace,
strip both ends. -/
def cleanText (s : String) : String :=
  String.mk (stripWS (wsCollapse (stripTagsAux (s.toList.length + 1) s.toList)))

/-- A toc attribute inside a bracket-tag attribute region (H3_RE, line 17):
literal toc, equals, quote, then a nonempty run of non-quote characters,
then the closing quote. -/
def tryToc (cs : List Char) : Option (String × List Char) :=
  match leadsWithCI "toc=\"".toList cs with
  | none => none
  | some r =>
    match takeUntilChar '"' r with
    | some (val, rest) => if val.isEmpty then none else some (String.mk val, rest)
    | none => none

/-- H3_RE (line 17): an h3 bracket tag whose attribute region carries a
toc attribute, spanning lazily to the closing h3 tag; the payload is the
toc value. -/
def tryH3 (cs : List Char) : Option (String × List Char) :=
  match leadsWithCI "[h3".toList cs with
  | none => none
  | some r1 =>
    match takeUntilChar ']' r1 with
    | none => none
    | some (attrs, r2) =>
      match searchFirst tryToc attrs with
      | none => none
      | some toc =>
        match takeUntilLitCI "[/h3]".toList r2 with
        | some (_, r3) => some (toc, r3)
        | none => none

/-- H4_RE (line 18): an h4 bracket tag with arbitrary attribute region,
payload is the lazily-matched inner content up to the closing h4 tag. -/
def tryH4 (cs : List Char) : Option (String × List Char) :=
  match leadsWithCI "[h4".toList cs with
  | none => none
  | some r1 =>
    match takeUntilChar ']' r1 with
    | none => none
    | some (_, r2) =>
      match takeUntilLitCI "[/h4]".toList r2 with
      | some (body, r3) => some (String.mk body, r3)
      | none => none

/-- TABLE_RE (line 19): payload is the table body. -/
def tryTable (cs : List Char) : Option (String × List Char) :=
  match leadsWithCI "[table".toList cs with
  | none => none
  | some r1 =>
    match takeUntilChar ']' r1 with
    | none => none
    | some (_, r2) =>
      match takeUntilLitCI "[/table]".toList r2 with
      | some (body, r3) => some (String.mk body, r3)
      | none => none

/-- TR_RE (line 20): no attribute region is allowed on the opening tag. -/
def tryTr (cs : List Char) : Option (String × List Char) :=
  match leadsWithCI "[tr]".toList cs with
  | none => none
  | some r1 =>
    match takeUntilLitCI "[/tr]".toList r1 with
    | some (body, r2) => some (String.mk body, r2)
    | none => none

/-- TD_RE (line 21): attribute region allowed. -/
def tryTd (cs : List Char) : Option (String × List Char) :=
  match leadsWithCI "[td".toList cs with
  | none => none
  | some r1 =>
    match takeUntilChar ']' r1 with
    | none => none
    | some (_, r2) =>
      match takeUntilLitCI "[/td]".toList r2 with
      | some (body, r3) => some (String.mk body, r3)
      | none => none

/-- ITEM_RE (line 22): a bracketed item reference with a numeric id and no
surrounding whitespace. -/
def tryItemEI (cs : List Char) : Option (Nat × List Char) :=
  match leadsWithCI "[item=".toList cs with
  | none => none
  | some r =>
    match takeDigits r with
    | ([], _) => none
    | (ds, rest) =>
      match rest with
      | ']' :: r2 => some (digitsToNat ds, r2)
      | _ => none

/-- REF_RE (line 23): an item or spell reference; the payload carries the
lowercased reference kind exactly as _extract_inline_refs lowercases
group(1). -/
def tryRef (cs : List Char) : Option ((String × Nat) × List Char) :=
  match leadsWithCI "[item=".toList cs with
  | some r =>
    match takeDigits r with
    | ([], _) => none
    | (ds, rest) =>
      match rest with
      | ']' :: r2 => some (("item", digitsToNat ds), r2)
      | _ => none
  | none =>
    match leadsWithCI "[spell=".toList cs with
    | none => none
    | some r =>
      match takeDigits r with
      | ([], _) => none
      | (ds, rest) =>
        match rest with
        | ']' :: r2 => some (("spell", digitsToNat ds), r2)
        | _ => none

/-! ### Slot normalization (lines 28-144) -/

/-- Search for the first position where the trailing qualifier pattern of
normalize_slot (line 30) matches: whitespace run, the word for, another
whitespace run, then at least one non-newline character reaching the end
of the string.  These helpers implement the backtracking split between
the second whitespace run and the dot-plus body. -/
def restAllNonNL (cs : List Char) : Bool := cs.all (fun c => !(c = '\n'))

def forBodySearch : List Char → Bool
  | [] => false
  | c :: rest => restAllNonNL (c :: rest) || (isWS c && forBodySearch rest)

def tryForAfter : List Char → Bool
  | [] => false
  | c :: rest => isWS c && forBodySearch rest

def matchForAt (cs : List Char) : Bool :=
  match leadsWithCI "for".toList cs with
  | some r => tryForAfter r
  | none => false

def forHeadSearch : List Char → Bool
  | [] => false
  | c :: rest => matchForAt (c :: rest) || (isWS c && forHeadSearch rest)

def forClauseAt : List Char → Bool
  | [] => false
  | c :: rest => isWS c && forHeadSearch rest

/-- Delete the leftmost match of the trailing qualifier clause and
everything after it (the match always extends to the end of the string). -/
def stripForAux : List Char → List Char
  | [] => []
  | c :: rest => if forClauseAt (c :: rest) then [] else c :: stripForAux rest

/-- The alias table of normalize_slot (lines 32-81), in source order; the
source dict repeats one key verbatim, which a dict collapses. -/
def slotAliases : List (String × String) :=
  [("shoulder", "Shoulders"), ("shoulders", "Shoulders"), ("back", "Back"),
   ("chest", "Chest"), ("wrist", "Wrist"), ("wrists", "Wrist"),
   ("hands", "Hands"), ("hand", "Hands"), ("waist", "Waist"),
   ("legs", "Legs"), ("feet", "Feet"), ("neck", "Neck"), ("head", "Head"),
   ("ring", "Rings"), ("rings", "Rings"), ("finger", "Rings"), ("fingers", "Rings"),
   ("trinket", "Trinkets"), ("trinkets", "Trinkets"),
   ("weapon", "Weapons"), ("weapons", "Weapons"),
   ("1-handed weapon", "Weapons"), ("1-handed weapons", "Weapons"),
   ("1handed weapon", "Weapons"), ("1handed weapons", "Weapons"),
   ("one-handed weapon", "Weapons"), ("one-handed weapons", "Weapons"),
   ("1h weapons", "Main-Hand"), ("2h weapons", "Main-Hand"),
   ("off-hand", "Off-Hand"), ("off-hands", "Off-Hand"), ("off hand", "Off-Hand"),
   ("offhands", "Off-Hand"), ("offhands and shields", "Off-Hand"),
   ("off-hands and shields", "Off-Hand"), ("shields / off-hands", "Off-Hand"),
   ("shields & offhands", "Off-Hand"),
   ("main-hand", "Main-Hand"), ("main hand", "Main-Hand"), ("main-hands", "Main-Hand"),
   ("totem", "Totems"), ("totems", "Totems"), ("idol", "Idols"), ("idols", "Idols"),
   ("libram", "Librams"), ("librams", "Librams"), ("ranged", "Ranged")]

/-- normalize_slot (lines 28-83): strip, drop the trailing qualifier
clause, collapse whitespace, then alias-lookup on the lowercased key with
the cleaned text itself as fallback. -/
def normalize_slot (raw : String) : String :=
  let c1 := stripWS raw.toList
  let c2 := stripForAux c1
  let c3 := stripWS (wsCollapse c2)
  let key := String.mk (c3.map Char.toLower)
  match alookup slotAliases key with
  | some v => v
  | none => String.mk c3

/-- VALID_SLOTS (lines 86-106). -/
def VALID_SLOTS : List String :=
  ["Head", "Shoulders", "Back", "Chest", "Wrist", "Hands", "Waist", "Legs",
   "Feet", "Neck", "Rings", "Trinkets", "Weapons", "Off-Hand", "Main-Hand",
   "Totems", "Idols", "Librams", "Ranged"]

/-- ENHANCEMENT_SLOT_ALIASES (lines 108-123). -/
def enhancementSlotAliases : List (String × String) :=
  [("head enchant", "Head"), ("shoulder enchant", "Shoulders"),
   ("cloak enchant", "Back"), ("chest enchant", "Chest"),
   ("bracer enchant", "Wrist"), ("gloves enchant", "Hands"),
   ("legs enchant", "Legs"), ("leg enchant", "Legs"),
   ("boots enchant", "Feet"), ("weapon enchant", "Weapons"),
   ("main-hand enchant", "Main-Hand"), ("off-hand enchant", "Off-Hand"),
   ("rings enchant", "Rings"), ("ring enchant", "Rings")]

/-- GEM_GROUP_ALIASES (lines 125-142). -/
def gemGroupAliases : List (String × String) :=
  [("best meta", "Meta"), ("best meta gems", "Meta"), ("meta gem", "Meta"),
   ("meta gems", "Meta"), ("best red", "Red"), ("best red gems", "Red"),
   ("red gem", "Red"), ("red gems", "Red"), ("best yellow", "Yellow"),
   ("best yellow gems", "Yellow"), ("yellow gem", "Yellow"),
   ("yellow gems", "Yellow"), ("best blue", "Blue"), ("best blue gems", "Blue"),
   ("blue gem", "Blue"), ("blue gems", "Blue")]

/-- VALID_ENHANCEMENT_BUCKETS (line 144). -/
def VALID_ENHANCEMENT_BUCKETS : List String :=
  ["Meta", "Red", "Yellow", "Blue"] ++ VALID_SLOTS

def endsWithL (suffix cs : List Char) : Bool := hasLead suffix.reverse cs.reverse

/-- _normalize_enhancement_bucket (lines 172-183). -/
def normalizeEnhancementBucket (raw : String) : String :=
  let cleaned := String.mk ((stripWS (wsCollapse (stripWS raw.toList))).map Char.toLower)
  match alookup gemGroupAliases cleaned with
  | some v => v
  | none =>
    match alookup enhancementSlotAliases cleaned with
    | some v => v
    | none =>
      let cl := cleaned.toList
      if endsWithL " enchant".toList cl then
        let maybe := normalize_slot (String.mk (cl.take (cl.length - 8)))
        if maybe ∈ VALID_SLOTS then maybe else String.mk (stripWS raw.toList)
      else String.mk (stripWS raw.toList)

/-! ### Ranked item entries (the row dicts built on lines 196-213 and 267-280) -/

structure Entry where
  order : Nat
  rank : String
  source : String
  tie_group_size : Nat
  tie_group_index : Nat
  tie_with_previous : Bool
  ref_type : String
  ref_id : Nat
  item_id : Option Nat
  item_name : Option String
  spell_id : Option Nat
deriving DecidableEq

/-- The per-item dict built in the table path (lines 267-280), with
tie_index enumerated from the given starting index. -/
def rowEntriesAux (lookup : List (Nat × String)) (ord n : Nat) (rank src : String) :
    Nat → List Nat → List Entry
  | _, [] => []
  | i, id :: rest =>
    { order := ord, rank := rank, source := src, tie_group_size := n,
      tie_group_index := i, tie_with_previous := decide (1 < i),
      ref_type := "item", ref_id := id, item_id := some id,
      item_name := alookup lookup id, spell_id := none } ::
      rowEntriesAux lookup ord n rank src (i + 1) rest

/-- All entries emitted for one valid row: enumerate(item_ids, start=1)
with tie_group_size the number of item references in the cell. -/
def rowEntries (lookup : List (Nat × String)) (ord : Nat) (rank src : String)
    (ids : List Nat) : List Entry :=
  rowEntriesAux lookup ord ids.length rank src 1 ids

/-- The body of the row loop of extract_by_slot (lines 249-281) acting on
the running (items, row_order) state: skip rows with fewer than two cells,
with no item references in the second cell, or with an empty or literal
header first cell; otherwise append one tie group and bump row_order. -/
def processRow (lookup : List (Nat × String)) (st : List Entry × Nat) (row : String) :
    List Entry × Nat :=
  match findAll tryTd row.toList with
  | c0 :: c1 :: rest =>
    let item_ids := findAll tryItemEI c1.toList
    if item_ids = [] then st
    else
      let rank_text := cleanText c0
      if rank_text = "" ∨ pyLower rank_text = "rank" then st
      else
        let src :=
          match rest with
          | c2 :: _ => cleanText c2
          | [] => ""
        (st.1 ++ rowEntries lookup st.2 rank_text src item_ids, st.2 + 1)
  | _ => st

/-- The table scan of one classified section (lines 244-281): all tables,
all rows, threading (items, row_order) through both loops, starting from
row_order 1. -/
def sectionTableItems (lookup : List (Nat × String)) (sect : String) : List Entry :=
  ((findAll tryTable sect.toList).foldl
    (fun st tbody => (findAll tryTr tbody.toList).foldl (processRow lookup) st)
    ([], 1)).1

/-- The entry dict of _extract_inline_refs (lines 198-212). -/
def mkInlineEntry (lookup : List (Nat × String)) (ord : Nat) (t : String) (id : Nat) :
    Entry :=
  { order := ord, rank := if ord = 1 then "Best" else "Alternative", source := "",
    tie_group_size := 1, tie_group_index := 1, tie_with_previous := false,
    ref_type := t, ref_id := id,
    item_id := if t = "item" then some id else none,
    item_name := if t = "item" then alookup lookup id else none,
    spell_id := if t = "item" then none else some id }

/-- The loop of _extract_inline_refs (lines 190-215): walk the references
in document order, skip keys already seen, append a fresh entry and bump
order otherwise. -/
def inlineLoop (lookup : List (Nat × String)) :
    List (String × Nat) → List (String × Nat) → List Entry → Nat → List Entry
  | [], _, items, _ => items
  | r :: rest, seen, items, ord =>
    if r ∈ seen then inlineLoop lookup rest seen items ord
    else inlineLoop lookup rest (r :: seen) (items ++ [mkInlineEntry lookup ord r.1 r.2]) (ord + 1)

/-- _extract_inline_refs (lines 186-215). -/
def extractInlineRefs (lookup : List (Nat × String)) (sect : String) : List Entry :=
  inlineLoop lookup (findAll tryRef sect.toList) [] [] 1

/-- The reference identity of an entry, the dedup key of the pipeline. -/
def refKey (e : Entry) : String × Nat := (e.ref_type, e.ref_id)

/-- Entries carry orders n, n+1, n+2, ... in list position, with rank
Best exactly at order one and Alternative otherwise. -/
def ordersFrom : Nat → List Entry → Prop
  | _, [] => True
  | n, e :: rest =>
    e.order = n ∧ e.rank = (if n = 1 then "Best" else "Alternative") ∧
      ordersFrom (n + 1) rest

/-- Adjacency relation of a slot's table-extracted list: the next entry
either continues the same tie group (same order, flagged
tie_with_previous) or starts the next row (order exactly one larger, not
flagged).  Chains of this relation say that order is constant inside a
tie group and strictly increasing, by exactly one, across rows. -/
def tieStep (a b : Entry) : Prop :=
  (b.order = a.order ∧ b.tie_with_previous = true) ∨
  (b.order = a.order + 1 ∧ b.tie_with_previous = false)

/-- The per-header body of extract_by_slot (lines 230-287): slot
normalization and validity filter, table extraction, the gems_enchants
inline fallback, and the nonempty filter before a result is appended. -/
def processHeaderSection (guide_type : String) (lookup : List (Nat × String))
    (header_name sect : String) : Option (String × List Entry) :=
  let slot_name :=
    if guide_type = "gems_enchants" then normalizeEnhancementBucket header_name
    else normalize_slot header_name
  let valid :=
    if guide_type = "gems_enchants" then VALID_ENHANCEMENT_BUCKETS else VALID_SLOTS
  if slot_name ∈ valid then
    let items0 := sectionTableItems lookup sect
    let items :=
      if items0 = [] ∧ guide_type = "gems_enchants" then extractInlineRefs lookup sect
      else items0
    if items = [] then none else some (slot_name, items)
  else none

/-- Stable insertion into a start-sorted header list: an element coming
earlier in the original list stays before elements with an equal start,
matching the stable Python sort on line 226. -/
def insertByStart (x : Nat × Nat × String) :
    List (Nat × Nat × String) → List (Nat × Nat × String)
  | [] => [x]
  | y :: ys => if y.1 < x.1 then y :: insertByStart x ys else x :: y :: ys

def isortByStart : List (Nat × Nat × String) → List (Nat × Nat × String)
  | [] => []
  | x :: xs => insertByStart x (isortByStart xs)

/-- Pair each header with the start position of the next one, the last
with the total markup length (the section bounds of lines 240-242). -/
def pairWithNext : List (Nat × Nat × String) → Nat → List ((Nat × Nat × String) × Nat)
  | [], _ => []
  | [h], total => [(h, total)]
  | h :: h2 :: rest, total => (h, h2.1) :: pairWithNext (h2 :: rest) total

/-- extract_by_slot (lines 218-289): collect h3(toc) and cleaned h4
headers, sort by document position, slice each section from the header
end to the next header start (an empty slice when the next header starts
inside this header's span, as with Python slicing), and process every
section, keeping the nonempty results in order. -/
def extract_by_slot (markup : String) (lookup : List (Nat × String))
    (guide_type : String) : List (String × List Entry) :=
  let cs := markup.toList
  let h3s := findAllPos tryH3 cs
  let h4s := (findAllPos tryH4 cs).map (fun p => (p.1, p.2.1, cleanText p.2.2))
  let headers := isortByStart (h3s ++ h4s)
  (pairWithNext headers cs.length).filterMap
    (fun p =>
      let sect := String.mk ((cs.drop p.1.2.1).take (p.2 - p.1.2.1))
      processHeaderSection guide_type lookup p.1.2.2 sect)

/-! ### extract_markup (lines 13-14, 152-156) -/

/-- Scan a JavaScript double-quoted string body: escape pairs or plain
characters, up to the unescaped closing quote; returns the raw body (with
escape sequences intact) and the remainder after the quote. -/
def scanJsString : List Char → Option (List Char × List Char)
  | [] => none
  | '"' :: rest => some ([], rest)
  | '\\' :: [] => none
  | '\\' :: c :: rest =>
    match scanJsString rest with
    | some (b, r) => some ('\\' :: c :: b, r)
    | none => none
  | c :: rest =>
    match scanJsString rest with
    | some (b, r) => some (c :: b, r)
    | none => none

/-- PRINT_HTML_RE (lines 13-14): the printHtml call with a double-quoted
first argument followed by a comma or the closing parenthesis; payload is
the raw string body. -/
def tryPrintHtmlItems (cs : List Char) : Option (List Char × List Char) :=
  match leadsWithEx "WH.markup.printHtml(".toList cs with
  | none => none
  | some r1 =>
    match dropWS r1 with
    | '"' :: r3 =>
      match scanJsString r3 with
      | some (body, r4) =>
        match dropWS r4 with
        | ',' :: r6 => some (body, r6)
        | ')' :: r6 => some (body, r6)
        | _ => none
      | none => none
    | _ => none

def hexVal (c : Char) : Option Nat :=
  if c.isDigit then some (c.toNat - 48)
  else if 'a' ≤ c ∧ c ≤ 'f' then some (c.toNat - 87)
  else if 'A' ≤ c ∧ c ≤ 'F' then some (c.toNat - 55)
  else none

/-- Models json.loads applied to the quoted string payload: decode the
JSON escape sequences (backslash with quote, backslash, slash, b, f, n,
r, t, or a four-hex-digit u escape); any other escape is a decode error.
Surrogate-pair recombination of u escapes is not modelled; each u escape
becomes one scalar. -/
def jsonUnescape : List Char → Option (List Char)
  | [] => some []
  | '\\' :: [] => none
  | '\\' :: e :: rest =>
    if e = '"' then (jsonUnescape rest).map (fun t => '"' :: t)
    else if e = '\\' then (jsonUnescape rest).map (fun t => '\\' :: t)
    else if e = '/' then (jsonUnescape rest).map (fun t => '/' :: t)
    else if e = 'b' then (jsonUnescape rest).map (fun t => Char.ofNat 8 :: t)
    else if e = 'f' then (jsonUnescape rest).map (fun t => Char.ofNat 12 :: t)
    else if e = 'n' then (jsonUnescape rest).map (fun t => '\n' :: t)
    else if e = 'r' then (jsonUnescape rest).map (fun t => '\r' :: t)
    else if e = 't' then (jsonUnescape rest).map (fun t => '\t' :: t)
    else if e = 'u' then
      match rest with
      | a :: b :: c :: d :: r2 =>
        match hexVal a, hexVal b, hexVal c, hexVal d with
        | some x1, some x2, some x3, some x4 =>
          (jsonUnescape r2).map
            (fun t => Char.ofNat (((x1 * 16 + x2) * 16 + x3) * 16 + x4) :: t)
        | _, _, _, _ => none
      | _ => none
    else none
  | c :: rest => (jsonUnescape rest).map (fun t => c :: t)

/-- extract_markup (lines 152-156): raise when the printHtml construct is
absent, otherwise json-decode the quoted argument.  The Python raise of
ValueError is modelled as the error branch of Except. -/
def extract_markup (html_text : String) : Except String String :=
  match searchFirst tryPrintHtmlItems html_text.toList with
  | none => Except.error "Could not find WH.markup.printHtml content"
  | some body =>
    match jsonUnescape body with
    | some decoded => Except.ok (String.mk decoded)
    | none => Except.error "invalid JSON string literal"

end EI

/-! ## parse_wowhead_html.py -/

namespace PW

/-- unescape_js_string (lines 113-121): the exact chain of global string
replacements, in source order. -/
def unescape_js_string (value : String) : String :=
  (((((value.replace "\\n" "\n").replace "\\r" "\r").replace "\\t" "\t").replace
    "\\\"" "\"").replace "\\/" "/").replace "\\\\" "\\"

/-- The printHtml pattern of extract_guide_markup (lines 124-127): the
call with a double-quoted first argument and the literal guide-body
second argument; payload is the raw string body. -/
def tryPrintHtmlGuide (cs : List Char) : Option (List Char × List Char) :=
  match leadsWithEx "WH.markup.printHtml(".toList cs with
  | none => none
  | some r1 =>
    match dropWS r1 with
    | '"' :: r2 =>
      match EI.scanJsString r2 with
      | some (body, r3) =>
        match dropWS r3 with
        | ',' :: r4 =>
          match leadsWithEx "\"guide-body\"".toList (dropWS r4) with
          | some r5 => some (body, r5)
          | none => none
        | _ => none
      | none => none
    | _ => none

/-- extract_guide_markup (lines 123-131). -/
def extract_guide_markup (html_text : String) : Option String :=
  (searchFirst tryPrintHtmlGuide html_text.toList).map
    (fun b => unescape_js_string (String.mk b))

/-- The noscript pattern of extract_noscript (lines 107-111). -/
def tryNoscript (cs : List Char) : Option (String × List Char) :=
  match leadsWithCI "<noscript>".toList cs with
  | none => none
  | some r1 =>
    match takeUntilLitCI "</noscript>".toList r1 with
    | some (body, r2) => some (String.mk body, r2)
    | none => none

def extract_noscript (html_text : String) : Option String :=
  searchFirst tryNoscript html_text.toList

/-- The named entities recognized by this model of the stdlib
html.unescape used by clean_text (line 101).  The full HTML5 entity table
is not reproduced; decimal numeric references and the standard XML
entities suffice for the heading texts this parser cleans, and no theorem
below depends on entity coverage. -/
def entityTable : List (String × Char) :=
  [("&amp;", '&'), ("&lt;", '<'), ("&gt;", '>'), ("&quot;", '"'),
   ("&apos;", '\''), ("&nbsp;", Char.ofNat 160)]

def tryEntityNamed : List (String × Char) → List Char → Option (Char × List Char)
  | [], _ => none
  | (n, ch) :: rest, cs =>
    match leadsWithEx n.toList cs with
    | some r => some (ch, r)
    | none => tryEntityNamed rest cs

def tryNumericEntity (cs : List Char) : Option (Char × List Char) :=
  match leadsWithEx "&#".toList cs with
  | none => none
  | some r =>
    match takeDigits r with
    | ([], _) => none
    | (ds, rest) =>
      match rest with
      | ';' :: r2 => some (Char.ofNat (digitsToNat ds), r2)
      | _ => none

def htmlUnescapeAux : Nat → List Char → List Char
  | 0, cs => cs
  | Nat.succ _, [] => []
  | Nat.succ fuel, c :: cs =>
    if c = '&' then
      match tryEntityNamed entityTable (c :: cs) with
      | some (ch, rest) => ch :: htmlUnescapeAux fuel rest
      | none =>
        match tryNumericEntity (c :: cs) with
        | some (ch, rest) => ch :: htmlUnescapeAux fuel rest
        | none => c :: htmlUnescapeAux fuel cs
    else c :: htmlUnescapeAux fuel cs

def htmlUnescape (cs : List Char) : List Char := htmlUnescapeAux (cs.length + 1) cs

/-- Helpers for the angle-tag pattern of clean_text (line 102): one or
more non-closing-angle characters followed by the closing angle. -/
def angleAfterRest : List Char → Option (List Char)
  | [] => none
  | '>' :: r => some r
  | _ :: r => angleAfterRest r

def angleBodyRest : List Char → Option (List Char)
  | [] => none
  | '>' :: _ => none
  | _ :: rest => angleAfterRest rest

/-- Replace every angle tag with one space (clean_text line 102). -/
def stripAngleTagsAux : Nat → List Char → List Char
  | 0, cs => cs
  | Nat.succ _, [] => []
  | Nat.succ fuel, c :: cs =>
    if c = '<' then
      match angleBodyRest cs with
      | some rest => ' ' :: stripAngleTagsAux fuel rest
      | none => c :: stripAngleTagsAux fuel cs
    else c :: stripAngleTagsAux fuel cs

/-- clean_text (lines 100-104): html-unescape, strip angle tags to
spaces, collapse whitespace, strip. -/
def clean_text (value : String) : String :=
  let u := htmlUnescape value.toList
  String.mk (stripWS (wsCollapse (stripAngleTagsAux (u.length + 1) u)))

/-- section_slot_ids (lines 134-222): the ordered chain of substring
checks on the lowercased heading, with the accumulated weapon-cue flags.
The body text (section_lowered) feeds only the off-hand and main-hand
cues. -/
def section_slot_ids (heading_text : String) (section_text : String) : List Nat :=
  let lowered := pyLower heading_text
  if substrS "head" lowered then [1]
  else if substrS "neck" lowered then [2]
  else if substrS "shoulder" lowered then [3]
  else if substrS "back" lowered || substrS "cloak" lowered then [15]
  else if substrS "chest" lowered then [5]
  else if substrS "wrist" lowered then [9]
  else
    let has_dual_wield := substrS "dual-wield" lowered || substrS "dual wield" lowered
    let section_lowered := pyLower section_text
    if substrS "idol" lowered || substrS "relic" lowered || substrS "totem" lowered ||
        substrS "libram" lowered || substrS "ranged" lowered || substrS "wand" lowered then
      [18]
    else
      let has_offhand := substrS "off-hand" lowered || substrS "off hand" lowered ||
        substrS "offhand" lowered || substrS "offhands" lowered ||
        substrS "shield" lowered || substrS "off-hand" section_lowered ||
        substrS "off hand" section_lowered || substrS "offhand" section_lowered ||
        substrS "offhands" section_lowered
      let has_mainhand := substrS "weapon" lowered || substrS "main hand" lowered ||
        substrS "main-hand" lowered || substrS "mainhand" lowered ||
        substrS "mainhands" lowered || substrS "main hand" section_lowered ||
        substrS "main-hand" section_lowered || substrS "mainhand" section_lowered
      let is_weapon_hand_section := has_dual_wield || substrS "weapon" lowered ||
        substrS "handed" lowered || substrS "one-hand" lowered ||
        substrS "one hand" lowered || substrS "1-hand" lowered ||
        substrS "1 hand" lowered || substrS "two-hand" lowered ||
        substrS "two hand" lowered || substrS "2-hand" lowered ||
        substrS "2 hand" lowered || substrS "main hand" lowered ||
        substrS "off-hand" lowered || substrS "off hand" lowered ||
        substrS "mainhand" lowered || substrS "offhand" lowered ||
        substrS "mainhands" lowered || substrS "offhands" lowered
      if (substrS "hand" lowered || substrS "glove" lowered) && !is_weapon_hand_section then
        [10]
      else if substrS "waist" lowered || substrS "belt" lowered then [6]
      else if substrS "leg" lowered then [7]
      else if substrS "feet" lowered || substrS "boot" lowered then [8]
      else if substrS "ring" lowered then [11, 12]
      else if substrS "trinket" lowered then [13, 14]
      else if has_dual_wield then [16, 17]
      else if has_offhand && has_mainhand then [16, 17]
      else if has_offhand then [17]
      else if has_mainhand && has_offhand then [16, 17]
      else if has_mainhand then [16]
      else []

/-! ### Table and section scanners of the numeric parser -/

/-- HTML table row (line 227): opening tr tag with attribute region, lazy
body to the closing tag. -/
def tryTrH (cs : List Char) : Option (String × List Char) :=
  match leadsWithCI "<tr".toList cs with
  | none => none
  | some r1 =>
    match takeUntilChar '>' r1 with
    | none => none
    | some (_, r2) =>
      match takeUntilLitCI "</tr>".toList r2 with
      | some (body, r3) => some (String.mk body, r3)
      | none => none

/-- HTML table cell (line 231). -/
def tryTdH (cs : List Char) : Option (String × List Char) :=
  match leadsWithCI "<td".toList cs with
  | none => none
  | some r1 =>
    match takeUntilChar '>' r1 with
    | none => none
    | some (_, r2) =>
      match takeUntilLitCI "</td>".toList r2 with
      | some (body, r3) => some (String.mk body, r3)
      | none => none

/-- The tbc item link pattern (lines 237, 248). -/
def tryTbcItem (cs : List Char) : Option (Nat × List Char) :=
  match leadsWithCI "/tbc/item=".toList cs with
  | none => none
  | some r =>
    match takeDigits r with
    | ([], _) => none
    | (ds, rest) => some (digitsToNat ds, rest)

/-- The bracket item pattern with optional interior whitespace
(lines 239, 250). -/
def tryItemSpacey (cs : List Char) : Option (Nat × List Char) :=
  match leadsWithCI "[item=".toList cs with
  | none => none
  | some r =>
    match takeDigits (dropWS r) with
    | ([], _) => none
    | (ds, rest) =>
      match dropWS rest with
      | ']' :: r2 => some (digitsToNat ds, r2)
      | _ => none

/-- parse_ranked_items_from_table (lines 225-243): HTML rows first with a
bracket-row fallback, HTML cells first with a bracket-cell fallback,
tbc item links first with a bracket-item fallback, deduplicating into one
ranked list.  The bracket row, cell and plain item patterns coincide with
the extractor module's TR_RE, TD_RE and ITEM_RE, so those matchers are
reused. -/
def parse_ranked_items_from_table (table_html : String) : List Nat :=
  let cs := table_html.toList
  let rowsH := findAll tryTrH cs
  let rows := if rowsH = [] then findAll EI.tryTr cs else rowsH
  rows.foldl
    (fun ranked row =>
      let rcs := row.toList
      let cellsH := findAll tryTdH rcs
      let cells := if cellsH = [] then findAll EI.tryTd rcs else cellsH
      match cells with
      | _ :: c1 :: _ =>
        let idsT := findAll tryTbcItem c1.toList
        let ids := if idsT = [] then findAll tryItemSpacey c1.toList else idsT
        addUnique ranked ids
      | _ => ranked)
    []

/-- parse_linked_item_ids (lines 246-254). -/
def parse_linked_item_ids (sect : String) : List Nat :=
  let cs := sect.toList
  let idsT := findAll tryTbcItem cs
  let ids := if idsT = [] then findAll tryItemSpacey cs else idsT
  dedupKeep ids

/-- Whole-match wrapper: the consumed text of a matcher, for findall
applied to a pattern without capture groups (line 295). -/
def tryWhole {α : Type} (tryM : List Char → Option (α × List Char)) (cs : List Char) :
    Option (String × List Char) :=
  match tryM cs with
  | some (_, rest) => some (String.mk (cs.take (cs.length - rest.length)), rest)
  | none => none

/-- HTML table block (line 295), used as a whole match. -/
def tryTableH (cs : List Char) : Option (Unit × List Char) :=
  match leadsWithCI "<table".toList cs with
  | none => none
  | some r1 =>
    match takeUntilChar '>' r1 with
    | none => none
    | some (_, r2) =>
      match takeUntilLitCI "</table>".toList r2 with
      | some (_, r3) => some ((), r3)
      | none => none

/-- The ranked-list computation for one section of parse_guide_slots
(lines 281-301): in the markup branch scan bracket tables, re-wrap each
body, parse it, and when a table parses to nothing fall back to the plain
bracket item ids of the whole re-wrapped table; in the noscript branch
scan HTML tables; in both branches fall back to the linked item ids of
the whole section when no table produced anything. -/
def rankedOfSection (isMarkup : Bool) (sect : String) : List Nat :=
  let ranked :=
    if isMarkup then
      (findAll EI.tryTable sect.toList).foldl
        (fun ranked inner =>
          let table_markup := "[table]" ++ inner ++ "[/table]"
          let parsed := parse_ranked_items_from_table table_markup
          let ranked2 := addUnique ranked parsed
          if parsed = [] then
            addUnique ranked2 (findAll EI.tryItemEI table_markup.toList)
          else ranked2)
        []
    else
      (findAll (tryWhole tryTableH) sect.toList).foldl
        (fun ranked thtml => addUnique ranked (parse_ranked_items_from_table thtml)) []
  if ranked = [] then parse_linked_item_ids sect else ranked

/-- Scan up to the first position where a closing matcher fires; generic
version of the lazy body scan for closing tags with a digit range. -/
def takeUntilM (tryClose : List Char → Option (List Char)) :
    List Char → Option (List Char × List Char)
  | [] =>
    match tryClose [] with
    | some r => some ([], r)
    | none => none
  | c :: cs =>
    match tryClose (c :: cs) with
    | some r => some ([], r)
    | none =>
      match takeUntilM tryClose cs with
      | some (pre, rest) => some (c :: pre, rest)
      | none => none

def isDigit26 (c : Char) : Bool := '2' ≤ c && c ≤ '6'

/-- Closing header tag of the markup section pattern (line 261). -/
def tryCloseHB (cs : List Char) : Option (List Char) :=
  match leadsWithCI "[/h".toList cs with
  | some (c :: r) =>
    if isDigit26 c then
      match r with
      | ']' :: r2 => some r2
      | _ => none
    else none
  | _ => none

/-- The markup header pattern of parse_guide_slots (line 261): bracket h
tag at heading levels two to six with attribute region, lazy inner text,
and a closing h tag at any of those levels. -/
def tryHMarkup (cs : List Char) : Option (String × List Char) :=
  match leadsWithCI "[h".toList cs with
  | some (c :: r) =>
    if isDigit26 c then
      match takeUntilChar ']' r with
      | some (_, r2) =>
        match takeUntilM tryCloseHB r2 with
        | some (body, r3) => some (String.mk body, r3)
        | none => none
      | none => none
    else none
  | _ => none

/-- Closing header tag of the HTML section pattern (line 267). -/
def tryCloseHH (cs : List Char) : Option (List Char) :=
  match leadsWithCI "</h".toList cs with
  | some (c :: r) =>
    if isDigit26 c then
      match r with
      | '>' :: r2 => some r2
      | _ => none
    else none
  | _ => none

/-- The HTML header pattern of parse_guide_slots (line 267). -/
def tryHHtml (cs : List Char) : Option (String × List Char) :=
  match leadsWithCI "<h".toList cs with
  | some (c :: r) =>
    if isDigit26 c then
      match takeUntilChar '>' r with
      | some (_, r2) =>
        match takeUntilM tryCloseHH r2 with
        | some (body, r3) => some (String.mk body, r3)
        | none => none
      | none => none
    else none
  | _ => none

/-- Sections as (raw heading inner text, body from header end to next
header start or text end), exactly the bounds of lines 272-276. -/
def findSections (tryH : List Char → Option (String × List Char)) (cs : List Char) :
    List (String × String) :=
  (EI.pairWithNext (findAllPos tryH cs) cs.length).map
    (fun p => (p.1.2.2, String.mk ((cs.drop p.1.2.1).take (p.2 - p.1.2.1))))

/-- One iteration of the section loop of parse_guide_slots
(lines 272-305): clean the heading, classify it, skip unclassified
sections and sections without ranked items, and assign the one shared
ranked list to every target slot id, overwriting earlier assignments. -/
def sectionStep (isMarkup : Bool) (m : SlotMap) (sec : String × String) : SlotMap :=
  let heading := clean_text sec.1
  let targets := section_slot_ids heading sec.2
  if targets = [] then m
  else
    let ranked := rankedOfSection isMarkup sec.2
    if ranked = [] then m
    else targets.foldl (fun mm slot => assocSet mm slot ranked) m

def parse_guide_slots_loop (isMarkup : Bool) (sections : List (String × String)) :
    SlotMap :=
  sections.foldl (sectionStep isMarkup) []

/-- The slot ids a section classifies to. -/
def secTargets (sec : String × String) : List Nat :=
  section_slot_ids (clean_text sec.1) sec.2

/-- The ranked list a section yields. -/
def secRanked (isMarkup : Bool) (sec : String × String) : List Nat :=
  rankedOfSection isMarkup sec.2

/-- A section writes slot s exactly when it classifies to s and yields a
nonempty ranked list. -/
def contributes (isMarkup : Bool) (s : Nat) (sec : String × String) : Bool :=
  decide (s ∈ secTargets sec) && decide (secRanked isMarkup sec ≠ [])

/-- parse_guide_slots (lines 257-306) on the already-read file text:
locate the markup payload, fall back to the noscript block, return the
empty map when neither is present, otherwise run the section loop on the
branch-specific section split. -/
def parse_guide_slots_text (html_text : String) : SlotMap :=
  match extract_guide_markup html_text with
  | some markup => parse_guide_slots_loop true (findSections tryHMarkup markup.toList)
  | none =>
    match extract_noscript html_text with
    | none => []
    | some ns => parse_guide_slots_loop false (findSections tryHHtml ns.toList)

end PW

/-! ## extract_wowhead_guide_markup.py (the third markup locator) -/

namespace GM

/-- The module's unescape chain (lines 47-53 and 57-63): like the
numeric parser's but without the escaped-slash replacement. -/
def unescapeGM (value : String) : String :=
  ((((value.replace "\\n" "\n").replace "\\r" "\r").replace "\\t" "\t").replace
    "\\\"" "\"").replace "\\\\" "\\"

/-- PRINT_HTML_RE of this module (lines 26-29): optional whitespace
around the parenthesis and a mandatory closing parenthesis. -/
def tryPrintHtmlGM (cs : List Char) : Option (List Char × List Char) :=
  match leadsWithEx "WH.markup.printHtml".toList cs with
  | none => none
  | some r0 =>
    match dropWS r0 with
    | '(' :: r1 =>
      match dropWS r1 with
      | '"' :: r2 =>
        match EI.scanJsString r2 with
        | some (body, r3) =>
          match dropWS r3 with
          | ')' :: r4 => some (body, r4)
          | _ => none
        | none => none
      | _ => none
    | _ => none

/-- Lazy string-unit scan with a minimum unit count, for the fallback
pattern (lines 31-34): consume escape pairs or plain characters; once the
minimum is consumed, stop at the first closing quote. -/
def scanStrUnits : Nat → List Char → Option (List Char × List Char)
  | _, [] => none
  | n, '"' :: rest => if n = 0 then some ([], rest) else none
  | _, '\\' :: [] => none
  | n, '\\' :: c :: rest =>
    match scanStrUnits (n - 1) rest with
    | some (b, r) => some ('\\' :: c :: b, r)
    | none => none
  | n, c :: rest =>
    match scanStrUnits (n - 1) rest with
    | some (b, r) => some (c :: b, r)
    | none => none

/-- PRINT_HTML_FALLBACK_RE (lines 31-34): at least one hundred string
units, lazily extended to the first closing quote, with no closing
parenthesis required. -/
def tryPrintHtmlGMFallback (cs : List Char) : Option (List Char × List Char) :=
  match leadsWithEx "WH.markup.printHtml".toList cs with
  | none => none
  | some r0 =>
    match dropWS r0 with
    | '(' :: r1 =>
      match dropWS r1 with
      | '"' :: r2 => scanStrUnits 100 r2
      | _ => none
    | _ => none

/-- extract_print_html_payload (lines 41-64): main pattern first, then
the fallback; returns none rather than raising when neither matches. -/
def extract_print_html_payload (html : String) : Option String :=
  match searchFirst tryPrintHtmlGM html.toList with
  | some raw => some (unescapeGM (String.mk raw))
  | none =>
    match searchFirst tryPrintHtmlGMFallback html.toList with
    | some raw => some (unescapeGM (String.mk raw))
    | none => none

end GM

/-! ## Heap model for the frame property of merge_slot_maps

Python passes dicts and lists by reference and the frame claim is about
the absence of in-place mutation, so merge_slot_maps is re-embedded here
against an explicit store: list objects and dict objects live at numeric
references, dict values are references to list objects, and fresh objects
are allocated at the next free reference. -/

structure PyHeap where
  lists : List (Nat × List Nat)
  dicts : List (Nat × List (Nat × Nat))
  next : Nat
deriving DecidableEq

namespace PyHeap

def readList (h : PyHeap) (r : Nat) : List Nat := (alookup h.lists r).getD []

def readDict (h : PyHeap) (r : Nat) : List (Nat × Nat) := (alookup h.dicts r).getD []

/-- Apply a function to the value stored at one key. -/
def updAssoc {β : Type} (l : List (Nat × β)) (k : Nat) (f : β → β) : List (Nat × β) :=
  l.map (fun p => if p.1 = k then (p.1, f p.2) else p)

/-- ordered = [] (line 314): allocate a fresh empty list object. -/
def allocList (h : PyHeap) : Nat × PyHeap :=
  (h.next, ⟨(h.next, []) :: h.lists, h.dicts, h.next + 1⟩)

/-- merged = dict() (line 311): allocate a fresh empty dict object. -/
def allocDict (h : PyHeap) : Nat × PyHeap :=
  (h.next, ⟨h.lists, (h.next, []) :: h.dicts, h.next + 1⟩)

/-- ordered.append(item_id) (lines 316, 320). -/
def listAppendH (h : PyHeap) (r : Nat) (x : Nat) : PyHeap :=
  ⟨updAssoc h.lists r (fun l => l ++ [x]), h.dicts, h.next⟩

/-- merged[slot_id] = ordered (line 322). -/
def dictSetH (h : PyHeap) (r k v : Nat) : PyHeap :=
  ⟨h.lists, updAssoc h.dicts r (fun d => assocSet d k v), h.next⟩

/-- One dedup-append loop over a snapshot of the source items
(lines 315-320); only the fresh ordered list is written. -/
def appendUniqueItems (ordRef : Nat) (items : List Nat) (h : PyHeap) : PyHeap :=
  items.foldl
    (fun hh item => if item ∈ readList hh ordRef then hh else listAppendH hh ordRef item)
    h

/-- d.get(slot_id, []) followed by reading the referenced list object:
the item sequence one loop of lines 315-320 iterates over. -/
def slotItems (d : List (Nat × Nat)) (h : PyHeap) (slot : Nat) : List Nat :=
  match alookup d slot with
  | some lr => readList h lr
  | none => []

/-- Lines 321-322: store the ordered list in the result dict only when it
is nonempty. -/
def mergeSlotFinish (mergedRef slot ordRef : Nat) (h3 : PyHeap) : PyHeap :=
  if readList h3 ordRef = [] then h3 else dictSetH h3 mergedRef slot ordRef

/-- The per-slot body of merge_slot_maps (lines 313-322) against the
store: allocate the fresh ordered list, dedup-append the current items,
then the prior items, then store when nonempty.  The item lists are
snapshotted when each loop starts; the loops only append to the freshly
allocated ordered list, so the snapshots equal the live reads of the
source. -/
def mergeSlotStep (prevD currD : List (Nat × Nat)) (mergedRef : Nat) (h : PyHeap)
    (slot : Nat) : PyHeap :=
  mergeSlotFinish mergedRef slot (allocList h).1
    (appendUniqueItems (allocList h).1
      (slotItems prevD
        (appendUniqueItems (allocList h).1 (slotItems currD (allocList h).2 slot)
          (allocList h).2)
        slot)
      (appendUniqueItems (allocList h).1 (slotItems currD (allocList h).2 slot)
        (allocList h).2))

/-- merge_slot_maps (lines 309-323) against the store: allocate the
result dict, read both input dicts, iterate the key union (Python set
iteration order is unspecified; it is modelled as prior keys then current
keys, deduplicated — the frame property is independent of the order), and
return the mutated store with the reference of the fresh result dict. -/
def merge_slot_maps_heap (h : PyHeap) (prevRef currRef : Nat) : PyHeap × Nat :=
  let q := allocDict h
  let mergedRef := q.1
  let h1 := q.2
  let prevD := readDict h1 prevRef
  let currD := readDict h1 currRef
  let slotIds := dedupKeep (prevD.map Prod.fst ++ currD.map Prod.fst)
  (slotIds.foldl (fun hh slot => mergeSlotStep prevD currD mergedRef hh slot) h1,
   mergedRef)

/-- Every object stored at a reference below n holds the same value in
both heaps, and the allocation frontier has not moved backwards. -/
def Untouched (n : Nat) (h h' : PyHeap) : Prop :=
  h.next ≤ h'.next ∧
    ∀ r, r < n →
      alookup h'.lists r = alookup h.lists r ∧ alookup h'.dicts r = alookup h.dicts r

end PyHeap

/-! ## Lemmas about the dedup-append idiom -/

theorem addUnique_nil {α : Type} [DecidableEq α] (acc : List α) : addUnique acc [] = acc :=
  rfl

theorem addUnique_cons {α : Type} [DecidableEq α] (acc : List α) (x : α) (xs : List α) :
    addUnique acc (x :: xs) = addUnique (if x ∈ acc then acc else acc ++ [x]) xs :=
  rfl

theorem dedupKeep_cons {α : Type} [DecidableEq α] (x : α) (xs : List α) :
    dedupKeep (x :: xs) = addUnique [x] xs := by
  show addUnique [] (x :: xs) = _
  rw [addUnique_cons]
  simp

theorem mem_addUnique {α : Type} [DecidableEq α] (y : α) (xs : List α) :
    ∀ acc : List α, y ∈ addUnique acc xs ↔ y ∈ acc ∨ y ∈ xs := by
  induction xs with
  | nil => intro acc; simp [addUnique]
  | cons x xs ih =>
    intro acc
    rw [addUnique_cons]
    by_cases hx : x ∈ acc
    · rw [if_pos hx, ih]
      simp only [List.mem_cons]
      constructor
      · rintro (h | h)
        · exact Or.inl h
        · exact Or.inr (Or.inr h)
      · rintro (h | h | h)
        · exact Or.inl h
        · exact Or.inl (h ▸ hx)
        · exact Or.inr h
    · rw [if_neg hx, ih]
      simp only [List.mem_append, List.mem_singleton, List.mem_cons]
      tauto

theorem mem_dedupKeep {α : Type} [DecidableEq α] (y : α) (xs : List α) :
    y ∈ dedupKeep xs ↔ y ∈ xs := by
  rw [dedupKeep, mem_addUnique]
  simp

/-- The fundamental shape of the dedup-append loop: it appends, to the
untouched accumulator, the deduplicated new elements not already present. -/
theorem addUnique_eq_append {α : Type} [DecidableEq α] (xs : List α) :
    ∀ acc : List α,
      addUnique acc xs = acc ++ (dedupKeep xs).filter (fun y => decide (y ∉ acc)) := by
  induction xs with
  | nil => intro acc; simp [addUnique, dedupKeep]
  | cons x xs ih =>
    intro acc
    have hdk : dedupKeep (x :: xs) =
        x :: (dedupKeep xs).filter (fun y => decide (y ∉ ([x] : List α))) := by
      rw [dedupKeep_cons, ih [x]]
      simp
    rw [addUnique_cons]
    by_cases hx : x ∈ acc
    · rw [if_pos hx, ih acc, hdk]
      have hxf : decide (x ∉ acc) = false := by simp [hx]
      rw [List.filter_cons, hxf]
      simp only [Bool.false_eq_true, if_false]
      rw [List.filter_filter]
      congr 1
      refine List.filter_congr ?_
      intro y _
      by_cases hy : y = x
      · subst hy; simp [hx]
      · simp [hy]
    · rw [if_neg hx, ih (acc ++ [x]), hdk]
      have hxt : decide (x ∉ acc) = true := by simp [hx]
      rw [List.filter_cons, hxt]
      simp only [if_true]
      rw [List.filter_filter, List.append_assoc, List.singleton_append]
      congr 2
      refine List.filter_congr ?_
      intro y _
      by_cases hy : y = x
      · subst hy; simp
      · simp [hy]

theorem nodup_dedupKeep {α : Type} [DecidableEq α] (xs : List α) :
    (dedupKeep xs).Nodup := by
  induction xs with
  | nil => simp [dedupKeep, addUnique]
  | cons x xs ih =>
    rw [dedupKeep_cons, addUnique_eq_append]
    simp only [List.singleton_append, List.nodup_cons]
    refine ⟨?_, List.Nodup.filter _ ih⟩
    intro hx
    have := (List.mem_filter.mp hx).2
    simp at this

theorem nodup_addUnique {α : Type} [DecidableEq α] (acc xs : List α)
    (h : acc.Nodup) : (addUnique acc xs).Nodup := by
  rw [addUnique_eq_append]
  rw [List.nodup_append]
  refine ⟨h, List.Nodup.filter _ (nodup_dedupKeep xs), ?_⟩
  intro y hy hyf
  have := (List.mem_filter.mp hyf).2
  simp only [decide_eq_true_eq] at this
  exact this hy

theorem dedupKeep_eq_self {α : Type} [DecidableEq α] {xs : List α}
    (h : xs.Nodup) : dedupKeep xs = xs := by
  induction xs with
  | nil => rfl
  | cons x xs ih =>
    rw [dedupKeep_cons, addUnique_eq_append]
    rw [List.nodup_cons] at h
    rw [ih h.2]
    simp only [List.singleton_append]
    congr 1
    apply List.filter_eq_self.mpr
    intro y hy
    simp only [List.mem_singleton, decide_eq_true_eq]
    intro hyx
    exact h.1 (hyx ▸ hy)

theorem dedupKeep_eq_nil_iff {α : Type} [DecidableEq α] (xs : List α) :
    dedupKeep xs = [] ↔ xs = [] := by
  cases xs with
  | nil => simp [dedupKeep, addUnique]
  | cons x xs =>
    rw [dedupKeep_cons, addUnique_eq_append]
    simp

theorem addUnique_eq_nil_iff {α : Type} [DecidableEq α] (acc xs : List α) :
    addUnique acc xs = [] ↔ acc = [] ∧ xs = [] := by
  rw [addUnique_eq_append]
  rw [List.append_eq_nil]
  constructor
  · rintro ⟨ha, hf⟩
    subst ha
    refine ⟨rfl, ?_⟩
    rw [List.filter_eq_nil_iff] at hf
    cases hxs : xs with
    | nil => rfl
    | cons x rest =>
      exfalso
      have hx : x ∈ dedupKeep xs := (mem_dedupKeep x xs).mpr (by simp [hxs])
      have := hf x hx
      simp at this
  · rintro ⟨ha, hxs⟩
    subst ha; subst hxs
    exact ⟨rfl, rfl⟩

/-! ## C1: merge_slot_maps -/

theorem alookup_eq_none_of_not_mem {κ β : Type} [DecidableEq κ] (m : List (κ × β))
    (s : κ) (h : s ∉ m.map Prod.fst) : alookup m s = none := by
  induction m with
  | nil => rfl
  | cons p rest ih =>
    obtain ⟨k, v⟩ := p
    simp only [List.map_cons, List.mem_cons] at h
    push_neg at h
    simp only [alookup, if_neg h.1]
    exact ih h.2

theorem lookup_mergeKeys (L : Nat → List Nat) (ks : List Nat) (s : Nat) :
    alookup (ks.filterMap (fun k => if L k = [] then none else some (k, L k))) s =
      if s ∈ ks ∧ L s ≠ [] then some (L s) else none := by
  induction ks with
  | nil => simp [alookup]
  | cons k ks ih =>
    by_cases hk : L k = []
    · simp only [List.filterMap_cons, if_pos hk]
      rw [ih]
      by_cases hs : s = k
      · subst hs
        simp [hk]
      · simp [hs]
    · simp only [List.filterMap_cons, if_neg hk]
      by_cases hs : s = k
      · subst hs
        simp [alookup, hk]
      · simp only [alookup, if_neg hs]
        rw [ih]
        simp [hs]

theorem lookupSM_merge (prev curr : SlotMap) (s : Nat) :
    lookupSM (merge_slot_maps prev curr) s =
      if mergedListFor prev curr s = [] then none
      else some (mergedListFor prev curr s) := by
  show alookup _ s = _
  rw [merge_slot_maps]
  rw [lookup_mergeKeys (fun t => mergedListFor prev curr t)]
  by_cases h : mergedListFor prev curr s = []
  · simp [h]
  · have hs : s ∈ dedupKeep (slotKeys prev ++ slotKeys curr) := by
      rw [mem_dedupKeep, List.mem_append]
      by_contra hc
      push_neg at hc
      have h1 : alookup prev s = none := alookup_eq_none_of_not_mem prev s hc.1
      have h2 : alookup curr s = none := alookup_eq_none_of_not_mem curr s hc.2
      apply h
      unfold mergedListFor getSM lookupSM
      rw [h1, h2]
      rfl
    simp [h, hs]

theorem getSM_merge (prev curr : SlotMap) (s : Nat) :
    getSM (merge_slot_maps prev curr) s = mergedListFor prev curr s := by
  unfold getSM
  rw [lookupSM_merge]
  by_cases h : mergedListFor prev curr s = []
  · simp [h]
  · simp [h]

/-- C1 (corrected): for every pair of slot maps, the per-slot merged list
is exactly the current items deduplicated in order followed by the prior
items not already present; the output stores a slot exactly when that
combined list is nonempty (so a slot carrying only empty input lists is
dropped, which is the correction to the claim) — in particular a slot
absent from both inputs is absent, the list has no duplicate ids, and it
contains exactly the items present in either input for that slot. -/
theorem C1_merge_characterization (prev curr : SlotMap) (s : Nat) :
    lookupSM (merge_slot_maps prev curr) s =
      (if mergedListFor prev curr s = [] then none
       else some (mergedListFor prev curr s)) ∧
    (mergedListFor prev curr s = [] ↔ getSM curr s = [] ∧ getSM prev s = []) ∧
    (getSM (merge_slot_maps prev curr) s).Nodup ∧
    (∀ x, x ∈ getSM (merge_slot_maps prev curr) s ↔
        x ∈ getSM curr s ∨ x ∈ getSM prev s) := by
  refine ⟨lookupSM_merge prev curr s, ?_, ?_, ?_⟩
  · unfold mergedListFor
    rw [addUnique_eq_nil_iff, addUnique_eq_nil_iff]
    constructor
    · rintro ⟨⟨-, hc⟩, hp⟩
      exact ⟨hc, hp⟩
    · rintro ⟨hc, hp⟩
      exact ⟨⟨rfl, hc⟩, hp⟩
  · rw [getSM_merge]
    exact nodup_addUnique _ _ (nodup_addUnique _ _ List.nodup_nil)
  · intro x
    rw [getSM_merge]
    unfold mergedListFor
    rw [mem_addUnique, mem_addUnique]
    simp

/-- C1 counterexample: the claim as stated requires every slot present in
either input to be carried to the output with its combined list; the code
drops a slot whose combined list is empty.  With the prior map holding
slot 1 with an empty list and an empty current map, the output is the
empty map and slot 1 is gone. -/
theorem C1_counterexample :
    merge_slot_maps [(1, ([] : List Nat))] [] = [] ∧
    lookupSM (merge_slot_maps [(1, ([] : List Nat))] []) 1 = none :=
  ⟨rfl, rfl⟩

/-! ## C4: sequential cross-phase merging -/

theorem stepMergeList_eq (M lk : List Nat) (hM : M.Nodup) :
    stepMergeList M lk = dedupKeep lk ++ M.filter (fun x => decide (x ∉ lk)) := by
  unfold stepMergeList
  rw [addUnique_eq_append, dedupKeep_eq_self hM]
  congr 1
  refine List.filter_congr ?_
  intro y _
  simp [mem_dedupKeep]

theorem specGroup_nodup {α : Type} [DecidableEq α] (ls : List (List α)) :
    (specGroupGo ls).Nodup := by
  induction ls with
  | nil => simp [specGroupGo]
  | cons l rest ih =>
    simp only [specGroupGo]
    rw [List.nodup_append]
    refine ⟨nodup_dedupKeep l, List.Nodup.filter _ ih, ?_⟩
    intro y hy hyf
    have h1 : y ∈ l := (mem_dedupKeep y l).mp hy
    have h2 := (List.mem_filter.mp hyf).2
    simp only [decide_eq_true_eq] at h2
    exact h2 h1

theorem specMerged_nodup {α : Type} [DecidableEq α] (ls : List (List α)) :
    (specMergedList ls).Nodup :=
  specGroup_nodup _

theorem specMerged_snoc {α : Type} [DecidableEq α] (ls : List (List α)) (lk : List α) :
    specMergedList (ls ++ [lk]) =
      dedupKeep lk ++ (specMergedList ls).filter (fun x => decide (x ∉ lk)) := by
  unfold specMergedList
  rw [List.reverse_append]
  simp [specGroupGo]

theorem seqMergeList_eq_spec (l1 l2 : List Nat) (ls : List (List Nat)) :
    seqMergeList (l1 :: l2 :: ls) = specMergedList (l1 :: l2 :: ls) := by
  induction ls using List.reverseRecOn with
  | nil =>
    have hL : seqMergeList (l1 :: l2 :: []) = stepMergeList l1 l2 := rfl
    have hR : specMergedList (l1 :: l2 :: []) =
        dedupKeep l2 ++ (specMergedList [l1]).filter (fun x => decide (x ∉ l2)) := by
      have : (l1 :: l2 :: []) = [l1] ++ [l2] := rfl
      rw [this, specMerged_snoc]
    rw [hL, hR]
    have h1 : specMergedList [l1] = dedupKeep l1 := by
      unfold specMergedList
      simp [specGroupGo]
    rw [h1]
    unfold stepMergeList
    rw [addUnique_eq_append]
    congr 1
    refine List.filter_congr ?_
    intro y _
    simp [mem_dedupKeep]
  | append_singleton ls lk ih =>
    have h1 : seqMergeList (l1 :: l2 :: (ls ++ [lk])) =
        stepMergeList (seqMergeList (l1 :: l2 :: ls)) lk := by
      show ((l2 :: ls) ++ [lk]).foldl stepMergeList l1 = _
      rw [List.foldl_append]
      rfl
    rw [h1, ih, stepMergeList_eq _ _ (specMerged_nodup _)]
    have h2 : l1 :: l2 :: (ls ++ [lk]) = (l1 :: l2 :: ls) ++ [lk] := rfl
    rw [h2, specMerged_snoc]

theorem getSM_foldl_merge (ms : List SlotMap) (s : Nat) : ∀ m : SlotMap,
    getSM (ms.foldl merge_slot_maps m) s =
      (ms.map (fun mm => getSM mm s)).foldl stepMergeList (getSM m s) := by
  induction ms with
  | nil => intro m; rfl
  | cons mm ms ih =>
    intro m
    simp only [List.foldl_cons, List.map_cons]
    rw [ih]
    congr 1
    rw [getSM_merge]
    rfl

/-- C4: merging per-phase slot maps sequentially, with each phase's map
merged as the current map against the accumulated prior map exactly as
main() does for phases two onward, yields for every slot the items of all
phases grouped by the most recent phase mentioning them, most recent
first, each phase's intra-phase order preserved and duplicates removed
(specMergedList is that claimed description, written from the claim text).
Instantiating the phase list with any prefix gives the merged map of any
intermediate phase. -/
theorem C4_sequential_merge (m1 m2 : SlotMap) (ms : List SlotMap) (s : Nat) :
    getSM (seqMergeMaps (m1 :: m2 :: ms)) s =
      specMergedList ((m1 :: m2 :: ms).map (fun m => getSM m s)) := by
  unfold seqMergeMaps
  rw [getSM_foldl_merge]
  simp only [List.map_cons]
  exact seqMergeList_eq_spec _ _ _

/-! ## C2: tie groups of one table row -/

theorem rowEntriesAux_length (lookup : List (Nat × String)) (ord n : Nat)
    (rank src : String) : ∀ (ids : List Nat) (i : Nat),
    (EI.rowEntriesAux lookup ord n rank src i ids).length = ids.length := by
  intro ids
  induction ids with
  | nil => intro i; rfl
  | cons id rest ih =>
    intro i
    simp only [EI.rowEntriesAux, List.length_cons]
    rw [ih]

theorem rowEntriesAux_mem (lookup : List (Nat × String)) (ord n : Nat)
    (rank src : String) : ∀ (ids : List Nat) (i : Nat) (e : EI.Entry),
    e ∈ EI.rowEntriesAux lookup ord n rank src i ids →
      e.order = ord ∧ e.tie_group_size = n ∧ e.rank = rank := by
  intro ids
  induction ids with
  | nil =>
    intro i e h
    simp [EI.rowEntriesAux] at h
  | cons id rest ih =>
    intro i e h
    simp only [EI.rowEntriesAux, List.mem_cons] at h
    rcases h with h | h
    · subst h; exact ⟨rfl, rfl, rfl⟩
    · exact ih (i + 1) e h

theorem rowEntriesAux_indices (lookup : List (Nat × String)) (ord n : Nat)
    (rank src : String) : ∀ (ids : List Nat) (i : Nat),
    (EI.rowEntriesAux lookup ord n rank src i ids).map EI.Entry.tie_group_index =
      List.range' i ids.length := by
  intro ids
  induction ids with
  | nil => intro i; rfl
  | cons id rest ih =>
    intro i
    simp only [EI.rowEntriesAux, List.map_cons, List.length_cons]
    rw [ih, List.range'_succ]

theorem rowEntriesAux_twp_all (lookup : List (Nat × String)) (ord n : Nat)
    (rank src : String) : ∀ (ids : List Nat) (i : Nat), 2 ≤ i →
    (EI.rowEntriesAux lookup ord n rank src i ids).filter
        (fun e => e.tie_with_previous) =
      EI.rowEntriesAux lookup ord n rank src i ids := by
  intro ids
  induction ids with
  | nil => intro i _; rfl
  | cons id rest ih =>
    intro i hi
    simp only [EI.rowEntriesAux, List.filter_cons]
    have ht : decide (1 < i) = true := by simp; omega
    simp only [ht, if_true]
    rw [ih (i + 1) (by omega)]

theorem rowEntries_twp_count (lookup : List (Nat × String)) (ord : Nat)
    (rank src : String) (ids : List Nat) :
    ((EI.rowEntries lookup ord rank src ids).filter
        (fun e => e.tie_with_previous)).length = ids.length - 1 := by
  unfold EI.rowEntries
  cases ids with
  | nil => rfl
  | cons id rest =>
    simp only [EI.rowEntriesAux, List.filter_cons]
    have hf : (decide (1 < 1)) = false := by decide
    simp only [hf, Bool.false_eq_true, if_false]
    rw [rowEntriesAux_twp_all lookup ord _ rank src rest 2 (by omega)]
    rw [rowEntriesAux_length]
    simp

/-- C2: a table row that passes the validity guards (at least two cells,
at least one item reference in the second cell, a nonempty first cell
that is not the literal header word) emits exactly one entry per item
reference: all share the row's order, all carry tie_group_size equal to
the reference count, the tie_group_index values are one up to the count
in cell order, and all but the first are flagged tie_with_previous. -/
theorem C2_tie_group (lookup : List (Nat × String)) (row : String)
    (items0 : List EI.Entry) (ord : Nat) (c0 c1 : String) (rest : List String)
    (hcells : findAll EI.tryTd row.toList = c0 :: c1 :: rest)
    (hids : findAll EI.tryItemEI c1.toList ≠ [])
    (hrank1 : EI.cleanText c0 ≠ "")
    (hrank2 : pyLower (EI.cleanText c0) ≠ "rank") :
    (∃ src,
      EI.processRow lookup (items0, ord) row =
        (items0 ++
          EI.rowEntries lookup ord (EI.cleanText c0) src
            (findAll EI.tryItemEI c1.toList),
         ord + 1)) ∧
    (EI.rowEntries lookup ord (EI.cleanText c0) "src"
        (findAll EI.tryItemEI c1.toList)).length =
      (findAll EI.tryItemEI c1.toList).length ∧
    (∀ src e, e ∈ EI.rowEntries lookup ord (EI.cleanText c0) src
        (findAll EI.tryItemEI c1.toList) →
      e.order = ord ∧ e.tie_group_size = (findAll EI.tryItemEI c1.toList).length) ∧
    (∀ src, (EI.rowEntries lookup ord (EI.cleanText c0) src
        (findAll EI.tryItemEI c1.toList)).map EI.Entry.tie_group_index =
      List.range' 1 (findAll EI.tryItemEI c1.toList).length) ∧
    (∀ src, ((EI.rowEntries lookup ord (EI.cleanText c0) src
        (findAll EI.tryItemEI c1.toList)).filter
          (fun e => e.tie_with_previous)).length =
      (findAll EI.tryItemEI c1.toList).length - 1) := by
  have hr : ¬ (EI.cleanText c0 = "" ∨ pyLower (EI.cleanText c0) = "rank") := by
    push_neg
    exact ⟨hrank1, hrank2⟩
  refine ⟨?_, ?_, ?_, ?_, ?_⟩
  · cases rest with
    | nil =>
      refine ⟨"", ?_⟩
      simp only [EI.processRow, hcells, if_neg hids, if_neg hr]
    | cons c2 tail =>
      refine ⟨EI.cleanText c2, ?_⟩
      simp only [EI.processRow, hcells, if_neg hids, if_neg hr]
  · exact rowEntriesAux_length lookup ord _ _ _ _ 1
  · intro src e he
    have := rowEntriesAux_mem lookup ord _ _ src _ 1 e he
    exact ⟨this.1, this.2.1⟩
  · intro src
    exact rowEntriesAux_indices lookup ord _ _ src _ 1
  · intro src
    exact rowEntries_twp_count lookup ord _ src _

/-- C2 witness: a concrete two-item row. -/
theorem C2_witness :
    findAll EI.tryTd "[td]Best[/td][td][item=1][item=2][/td]".toList = ["Best", "[item=1][item=2]"] ∧
    findAll EI.tryItemEI "[item=1][item=2]".toList ≠ [] ∧
    EI.cleanText "Best" ≠ "" ∧
    pyLower (EI.cleanText "Best") ≠ "rank" ∧
    ((∃ src,
      EI.processRow [] ([], 1) "[td]Best[/td][td][item=1][item=2][/td]" =
        ([] ++
          EI.rowEntries [] 1 (EI.cleanText "Best") src
            (findAll EI.tryItemEI "[item=1][item=2]".toList),
         1 + 1)) ∧
    (EI.rowEntries [] 1 (EI.cleanText "Best") "src"
        (findAll EI.tryItemEI "[item=1][item=2]".toList)).length =
      (findAll EI.tryItemEI "[item=1][item=2]".toList).length ∧
    (∀ src e, e ∈ EI.rowEntries [] 1 (EI.cleanText "Best") src
        (findAll EI.tryItemEI "[item=1][item=2]".toList) →
      e.order = 1 ∧
        e.tie_group_size = (findAll EI.tryItemEI "[item=1][item=2]".toList).length) ∧
    (∀ src, (EI.rowEntries [] 1 (EI.cleanText "Best") src
        (findAll EI.tryItemEI "[item=1][item=2]".toList)).map EI.Entry.tie_group_index =
      List.range' 1 (findAll EI.tryItemEI "[item=1][item=2]".toList).length) ∧
    (∀ src, ((EI.rowEntries [] 1 (EI.cleanText "Best") src
        (findAll EI.tryItemEI "[item=1][item=2]".toList)).filter
          (fun e => e.tie_with_previous)).length =
      (findAll EI.tryItemEI "[item=1][item=2]".toList).length - 1)) :=
  ⟨by decide, by decide, by decide, by decide,
   C2_tie_group [] "[td]Best[/td][td][item=1][item=2][/td]" [] 1 "Best" "[item=1][item=2]" []
     (by decide) (by decide) (by decide) (by decide)⟩

/-! ## C3: order shape of one slot's table-extracted list -/

theorem chain'_rowEntriesAux (lookup : List (Nat × String)) (ord n : Nat)
    (rank src : String) : ∀ (ids : List Nat) (i : Nat), 1 ≤ i →
    List.Chain' EI.tieStep (EI.rowEntriesAux lookup ord n rank src i ids) := by
  intro ids
  induction ids with
  | nil => intro i _; simp [EI.rowEntriesAux]
  | cons id rest ih =>
    intro i hi
    simp only [EI.rowEntriesAux]
    rw [List.chain'_cons']
    refine ⟨?_, ih (i + 1) (by omega)⟩
    intro b hb
    cases rest with
    | nil => simp [EI.rowEntriesAux] at hb
    | cons id2 rest2 =>
      simp only [EI.rowEntriesAux, List.head?_cons, Option.mem_def, Option.some_inj] at hb
      subst hb
      left
      constructor
      · rfl
      · simp
        omega

theorem chain'_rowEntries (lookup : List (Nat × String)) (ord : Nat)
    (rank src : String) (ids : List Nat) :
    List.Chain' EI.tieStep (EI.rowEntries lookup ord rank src ids) := by
  unfold EI.rowEntries
  exact chain'_rowEntriesAux lookup ord _ rank src ids 1 (by omega)

theorem rowEntries_mem (lookup : List (Nat × String)) (ord : Nat)
    (rank src : String) (ids : List Nat) (e : EI.Entry)
    (h : e ∈ EI.rowEntries lookup ord rank src ids) :
    e.order = ord ∧ e.tie_group_size = ids.length := by
  have := rowEntriesAux_mem lookup ord ids.length rank src ids 1 e h
  exact ⟨this.1, this.2.1⟩

theorem rowEntries_ne_nil (lookup : List (Nat × String)) (ord : Nat)
    (rank src : String) (ids : List Nat) (h : ids ≠ []) :
    EI.rowEntries lookup ord rank src ids ≠ [] := by
  cases ids with
  | nil => exact absurd rfl h
  | cons id rest => simp [EI.rowEntries, EI.rowEntriesAux]

theorem rowEntries_head_twp (lookup : List (Nat × String)) (ord : Nat)
    (rank src : String) (ids : List Nat) (b : EI.Entry)
    (hb : b ∈ (EI.rowEntries lookup ord rank src ids).head?) :
    b.tie_with_previous = false := by
  cases ids with
  | nil => simp [EI.rowEntries, EI.rowEntriesAux] at hb
  | cons x xs =>
    simp only [EI.rowEntries, EI.rowEntriesAux, List.head?_cons, Option.mem_def,
      Option.some_inj] at hb
    rw [← hb]
    simp

theorem processRow_inv (lookup : List (Nat × String)) (row : String)
    (st : List EI.Entry × Nat)
    (h1 : List.Chain' EI.tieStep st.1)
    (h2 : 1 ≤ st.2)
    (h3 : ∀ e ∈ st.1, e.order < st.2)
    (h4 : ∀ e, st.1.getLast? = some e → e.order + 1 = st.2) :
    List.Chain' EI.tieStep (EI.processRow lookup st row).1 ∧
    1 ≤ (EI.processRow lookup st row).2 ∧
    (∀ e ∈ (EI.processRow lookup st row).1,
      e.order < (EI.processRow lookup st row).2) ∧
    (∀ e, (EI.processRow lookup st row).1.getLast? = some e →
      e.order + 1 = (EI.processRow lookup st row).2) := by
  obtain ⟨items, ord⟩ := st
  unfold EI.processRow
  cases hc : findAll EI.tryTd row.toList with
  | nil => exact ⟨h1, h2, h3, h4⟩
  | cons c0 cs =>
    cases cs with
    | nil => exact ⟨h1, h2, h3, h4⟩
    | cons c1 rest =>
      by_cases hids : findAll EI.tryItemEI c1.toList = []
      · simp only [if_pos hids]
        exact ⟨h1, h2, h3, h4⟩
      · simp only [if_neg hids]
        by_cases hrank : EI.cleanText c0 = "" ∨ pyLower (EI.cleanText c0) = "rank"
        · simp only [if_pos hrank]
          exact ⟨h1, h2, h3, h4⟩
        · simp only [if_neg hrank]
          generalize (match rest with | c2 :: _ => EI.cleanText c2 | [] => "") = src0
          refine ⟨?_, ?_, ?_, ?_⟩
          · apply List.Chain'.append h1 (chain'_rowEntries lookup ord _ _ _)
            intro a ha b hb
            have hao : a.order + 1 = ord := h4 a ha
            have hbo : b.order = ord :=
              (rowEntries_mem lookup ord _ _ _ b (List.mem_of_mem_head? hb)).1
            have hbt : b.tie_with_previous = false :=
              rowEntries_head_twp lookup ord _ _ _ b hb
            right
            exact ⟨by omega, hbt⟩
          · simp
          · intro e he
            show e.order < ord + 1
            rcases List.mem_append.mp he with he | he
            · have := h3 e he
              omega
            · have := (rowEntries_mem lookup ord _ _ _ e he).1
              omega
          · intro e he
            show e.order + 1 = ord + 1
            rw [List.getLast?_append_of_ne_nil _
              (rowEntries_ne_nil lookup ord _ _ _ hids)] at he
            obtain ⟨hne2, heq⟩ := List.mem_getLast?_eq_getLast he
            have hmem : e ∈ EI.rowEntries lookup ord (EI.cleanText c0) src0
                (findAll EI.tryItemEI c1.toList) := by
              subst heq
              exact List.getLast_mem hne2
            have := (rowEntries_mem lookup ord _ _ _ e hmem).1
            omega

theorem foldl_processRow_inv (lookup : List (Nat × String)) (rows : List String) :
    ∀ st : List EI.Entry × Nat,
    List.Chain' EI.tieStep st.1 → 1 ≤ st.2 → (∀ e ∈ st.1, e.order < st.2) →
    (∀ e, st.1.getLast? = some e → e.order + 1 = st.2) →
    List.Chain' EI.tieStep (rows.foldl (EI.processRow lookup) st).1 ∧
    1 ≤ (rows.foldl (EI.processRow lookup) st).2 ∧
    (∀ e ∈ (rows.foldl (EI.processRow lookup) st).1,
      e.order < (rows.foldl (EI.processRow lookup) st).2) ∧
    (∀ e, (rows.foldl (EI.processRow lookup) st).1.getLast? = some e →
      e.order + 1 = (rows.foldl (EI.processRow lookup) st).2) := by
  induction rows with
  | nil => intro st h1 h2 h3 h4; exact ⟨h1, h2, h3, h4⟩
  | cons row rows ih =>
    intro st h1 h2 h3 h4
    simp only [List.foldl_cons]
    have := processRow_inv lookup row st h1 h2 h3 h4
    exact ih _ this.1 this.2.1 this.2.2.1 this.2.2.2

theorem foldl_tables_inv (lookup : List (Nat × String)) (tables : List String) :
    ∀ st : List EI.Entry × Nat,
    List.Chain' EI.tieStep st.1 → 1 ≤ st.2 → (∀ e ∈ st.1, e.order < st.2) →
    (∀ e, st.1.getLast? = some e → e.order + 1 = st.2) →
    List.Chain' EI.tieStep
      ((tables.foldl
        (fun stt tbody => (findAll EI.tryTr tbody.toList).foldl (EI.processRow lookup) stt)
        st).1) ∧
    1 ≤ (tables.foldl
        (fun stt tbody => (findAll EI.tryTr tbody.toList).foldl (EI.processRow lookup) stt)
        st).2 ∧
    (∀ e ∈ (tables.foldl
        (fun stt tbody => (findAll EI.tryTr tbody.toList).foldl (EI.processRow lookup) stt)
        st).1,
      e.order < (tables.foldl
        (fun stt tbody => (findAll EI.tryTr tbody.toList).foldl (EI.processRow lookup) stt)
        st).2) ∧
    (∀ e, (tables.foldl
        (fun stt tbody => (findAll EI.tryTr tbody.toList).foldl (EI.processRow lookup) stt)
        st).1.getLast? = some e →
      e.order + 1 = (tables.foldl
        (fun stt tbody => (findAll EI.tryTr tbody.toList).foldl (EI.processRow lookup) stt)
        st).2) := by
  induction tables with
  | nil => intro st h1 h2 h3 h4; exact ⟨h1, h2, h3, h4⟩
  | cons tbody tables ih =>
    intro st h1 h2 h3 h4
    simp only [List.foldl_cons]
    have := foldl_processRow_inv lookup (findAll EI.tryTr tbody.toList) st h1 h2 h3 h4
    exact ih _ this.1 this.2.1 this.2.2.1 this.2.2.2

/-- C3 (amended): within one classified section the table-extracted list
satisfies the tie-step chain: consecutive entries either share the same
order inside one tie group (flagged tie_with_previous) or step to the
next row with order exactly one larger (unflagged).  Hence order is
constant within a tie group and strictly increasing across distinct
rows.  The deduplication part of the original claim is false for the
table path, see the counterexample. -/
theorem C3_order_shape (lookup : List (Nat × String)) (sect : String) :
    List.Chain' EI.tieStep (EI.sectionTableItems lookup sect) := by
  unfold EI.sectionTableItems
  exact (foldl_tables_inv lookup (findAll EI.tryTable sect.toList) ([], 1)
    List.chain'_nil (by omega) (by intro e he; simp at he)
    (by intro e he; simp at he)).1

/-- C3 counterexample: the table path never deduplicates reference
identity — one row whose item cell repeats item 5 yields two entries with
the same (ref_type, ref_id), so the slot list is not unique as claimed. -/
theorem C3_counterexample :
    ¬ (((EI.sectionTableItems []
          "[table][tr][td]A[/td][td][item=5][item=5][/td][/tr][/table]").map
        EI.refKey).Nodup) := by
  decide

/-! ## C5: the inline-reference fallback -/

theorem inlineLoop_keys (lookup : List (Nat × String)) :
    ∀ (refs seen : List (String × Nat)) (items : List EI.Entry) (ord : Nat),
    (∀ k, k ∈ seen ↔ k ∈ items.map EI.refKey) →
    (EI.inlineLoop lookup refs seen items ord).map EI.refKey =
      addUnique (items.map EI.refKey) refs := by
  intro refs
  induction refs with
  | nil =>
    intro seen items ord _
    rfl
  | cons r rest ih =>
    intro seen items ord hseen
    rw [addUnique_cons]
    by_cases hr : r ∈ seen
    · have hacc : r ∈ items.map EI.refKey := (hseen r).mp hr
      rw [if_pos hacc]
      simp only [EI.inlineLoop, if_pos hr]
      exact ih seen items ord hseen
    · have hacc : r ∉ items.map EI.refKey := fun h => hr ((hseen r).mpr h)
      rw [if_neg hacc]
      simp only [EI.inlineLoop, if_neg hr]
      have hkey : (items ++ [EI.mkInlineEntry lookup ord r.1 r.2]).map EI.refKey =
          items.map EI.refKey ++ [r] := by
        simp [EI.refKey, EI.mkInlineEntry]
      rw [ih (r :: seen) _ (ord + 1) ?_, hkey]
      intro k
      rw [hkey]
      simp only [List.mem_cons, List.mem_append, List.not_mem_nil, or_false]
      constructor
      · rintro (h | h)
        · exact Or.inr h
        · exact Or.inl ((hseen k).mp h)
      · rintro (h | h)
        · exact Or.inr ((hseen k).mpr h)
        · exact Or.inl h

theorem ordersFrom_append (ys xs : List EI.Entry) : ∀ n : Nat,
    EI.ordersFrom n xs → EI.ordersFrom (n + xs.length) ys →
    EI.ordersFrom n (xs ++ ys) := by
  induction xs with
  | nil =>
    intro n _ hy
    simpa using hy
  | cons e xs ih =>
    intro n hx hy
    obtain ⟨h1, h2, h3⟩ := hx
    refine ⟨h1, h2, ?_⟩
    apply ih (n + 1) h3
    have : n + 1 + xs.length = n + (xs.length + 1) := by omega
    rw [this]
    exact hy

theorem inlineLoop_orders (lookup : List (Nat × String)) :
    ∀ (refs seen : List (String × Nat)) (items : List EI.Entry) (ord : Nat),
    EI.ordersFrom 1 items → ord = items.length + 1 →
    EI.ordersFrom 1 (EI.inlineLoop lookup refs seen items ord) := by
  intro refs
  induction refs with
  | nil =>
    intro seen items ord h _
    exact h
  | cons r rest ih =>
    intro seen items ord h hord
    by_cases hr : r ∈ seen
    · simp only [EI.inlineLoop, if_pos hr]
      exact ih seen items ord h hord
    · simp only [EI.inlineLoop, if_neg hr]
      apply ih
      · apply ordersFrom_append _ _ 1 h
        refine ⟨?_, ?_, trivial⟩
        · show ord = 1 + items.length
          omega
        · show (if ord = 1 then "Best" else "Alternative") =
            (if 1 + items.length = 1 then "Best" else "Alternative")
          have : ord = 1 + items.length := by omega
          rw [this]
      · simp
        omega

/-- C5 (amended, restricted to the gems_enchants guide type): when a
classified section yields no table items, the extractor falls back to the
inline references of the raw section text — the emitted entries carry the
deduplicated (ref_type, ref_id) pairs in document order, orders one, two,
three and so on, the first rank Best and every later rank Alternative —
and the section is emitted exactly when the fallback is nonempty.  For
the bis guide type no fallback runs (see the counterexample). -/
theorem C5_inline_fallback (lookup : List (Nat × String)) (header sect : String)
    (hempty : EI.sectionTableItems lookup sect = []) :
    EI.processHeaderSection "gems_enchants" lookup header sect =
      (if EI.normalizeEnhancementBucket header ∈ EI.VALID_ENHANCEMENT_BUCKETS then
        (if EI.extractInlineRefs lookup sect = [] then none
         else some (EI.normalizeEnhancementBucket header,
                    EI.extractInlineRefs lookup sect))
       else none) ∧
    (EI.extractInlineRefs lookup sect).map EI.refKey =
      dedupKeep (findAll EI.tryRef sect.toList) ∧
    EI.ordersFrom 1 (EI.extractInlineRefs lookup sect) := by
  refine ⟨?_, ?_, ?_⟩
  · unfold EI.processHeaderSection
    simp [hempty]
  · unfold EI.extractInlineRefs dedupKeep
    rw [inlineLoop_keys lookup _ [] [] 1 (by intro k; simp)]
    rfl
  · exact inlineLoop_orders lookup _ [] [] 1 trivial rfl

/-- C5 witness: a gem section with a repeated item reference. -/
theorem C5_witness :
    EI.sectionTableItems [] "[item=3][spell=4][item=3]" = [] ∧
    (EI.processHeaderSection "gems_enchants" [] "Meta Gems" "[item=3][spell=4][item=3]" =
      (if EI.normalizeEnhancementBucket "Meta Gems" ∈ EI.VALID_ENHANCEMENT_BUCKETS then
        (if EI.extractInlineRefs [] "[item=3][spell=4][item=3]" = [] then none
         else some (EI.normalizeEnhancementBucket "Meta Gems",
                    EI.extractInlineRefs [] "[item=3][spell=4][item=3]"))
       else none) ∧
    (EI.extractInlineRefs [] "[item=3][spell=4][item=3]").map EI.refKey =
      dedupKeep (findAll EI.tryRef "[item=3][spell=4][item=3]".toList) ∧
    EI.ordersFrom 1 (EI.extractInlineRefs [] "[item=3][spell=4][item=3]")) :=
  ⟨by decide,
   C5_inline_fallback [] "Meta Gems" "[item=3][spell=4][item=3]" (by decide)⟩

/-- C5 counterexample: the claim as stated covers every classified
section, but the code only falls back for the gems_enchants guide type: a
bis-type Head section with no table and one inline item reference emits
nothing, while the inline scan of the same section is nonempty. -/
theorem C5_counterexample :
    EI.processHeaderSection "bis" [] "Head" "[item=5]" = none ∧
    EI.extractInlineRefs [] "[item=5]" ≠ [] := by
  exact ⟨by decide, by decide⟩

/-! ## C7: a classified section with no rows and no references -/

/-- C7 (amended): a classified section that yields no table rows and no
inline references contributes nothing to the extractor output — the slot
is absent from the results rather than present with an empty list (and,
the function being total, no error is raised); the original claim that
the slot appears with zero items is refuted by the counterexample. -/
theorem C7_empty_section (guide_type : String) (lookup : List (Nat × String))
    (header sect : String)
    (h1 : EI.sectionTableItems lookup sect = [])
    (h2 : EI.extractInlineRefs lookup sect = []) :
    EI.processHeaderSection guide_type lookup header sect = none := by
  unfold EI.processHeaderSection
  by_cases hv : (if guide_type = "gems_enchants"
      then EI.normalizeEnhancementBucket header
      else EI.normalize_slot header) ∈
      (if guide_type = "gems_enchants"
       then EI.VALID_ENHANCEMENT_BUCKETS else EI.VALID_SLOTS)
  · rw [if_pos hv, h1]
    by_cases hg : guide_type = "gems_enchants"
    · simp [hg, h2]
    · simp [hg]
  · rw [if_neg hv]

/-- C7 witness: an empty bis section. -/
theorem C7_witness :
    EI.sectionTableItems [] "" = [] ∧
    EI.extractInlineRefs [] "" = [] ∧
    EI.processHeaderSection "bis" [] "Head" "" = none :=
  ⟨by decide, by decide, C7_empty_section "bis" [] "Head" "" (by decide) (by decide)⟩

/-- C7 counterexample: a guide whose Head section is empty produces no
result entry for Head at all — the claim that the slot still appears with
an empty item list is false. -/
theorem C7_counterexample :
    EI.extract_by_slot "[h4]Head[/h4]" [] "bis" = [] := by
  decide

/-! ## C6: behaviour of the markup locators when the construct is absent -/

/-- C6 (amended): the items-extractor locator extract_markup does raise an
explicit error whenever the printHtml construct is absent — it never
returns successfully in that case.  The other two locators of the
repository do not raise (see the counterexample): extract_guide_markup
returns None and parse_guide_slots then silently returns an empty map,
and extract_print_html_payload returns None behind a markup_found flag. -/
theorem C6_extract_markup_raises (html : String)
    (h : searchFirst EI.tryPrintHtmlItems html.toList = none) :
    EI.extract_markup html =
      Except.error "Could not find WH.markup.printHtml content" := by
  unfold EI.extract_markup
  rw [h]

/-- C6 witness: the empty page has no printHtml construct. -/
theorem C6_witness :
    searchFirst EI.tryPrintHtmlItems "".toList = none ∧
    EI.extract_markup "" =
      Except.error "Could not find WH.markup.printHtml content" :=
  ⟨by decide, C6_extract_markup_raises "" (by decide)⟩

/-- C6 counterexample: on a page with no printHtml construct (and no
noscript block), the numeric parser returns the empty slot map as an
ordinary success instead of failing with an explicit error, and the other
locator module returns None rather than raising. -/
theorem C6_counterexample :
    PW.extract_guide_markup "" = none ∧
    PW.extract_noscript "" = none ∧
    GM.extract_print_html_payload "" = none ∧
    PW.parse_guide_slots_text "" = [] :=
  ⟨rfl, rfl, rfl, rfl⟩

/-! ## C8: hand-related headings -/

/-- C8 (amended): a heading containing hand or glove classifies to the
Hands numeric slot (id 10) provided it carries none of the code's
weapon-section cues (the claim listed only four of them; the code also
checks dual-wield and the one-hand, two-hand, mainhand and offhand
variants) and none of the earlier-priority slot keywords (head, neck,
shoulder, back, cloak, chest, wrist, idol, relic, totem, libram, ranged,
wand), which the original claim did not exclude — see the counterexample.
The body text plays no role in the hand decision. -/
theorem C8_hands_classifier (heading body : String)
    (hhand : substrS "hand" (pyLower heading) = true ∨
      substrS "glove" (pyLower heading) = true)
    (hhead : substrS "head" (pyLower heading) = false)
    (hneck : substrS "neck" (pyLower heading) = false)
    (hshoulder : substrS "shoulder" (pyLower heading) = false)
    (hback : substrS "back" (pyLower heading) = false)
    (hcloak : substrS "cloak" (pyLower heading) = false)
    (hchest : substrS "chest" (pyLower heading) = false)
    (hwrist : substrS "wrist" (pyLower heading) = false)
    (hidol : substrS "idol" (pyLower heading) = false)
    (hrelic : substrS "relic" (pyLower heading) = false)
    (htotem : substrS "totem" (pyLower heading) = false)
    (hlibram : substrS "libram" (pyLower heading) = false)
    (hranged : substrS "ranged" (pyLower heading) = false)
    (hwand : substrS "wand" (pyLower heading) = false)
    (hdw1 : substrS "dual-wield" (pyLower heading) = false)
    (hdw2 : substrS "dual wield" (pyLower heading) = false)
    (hweapon : substrS "weapon" (pyLower heading) = false)
    (hhanded : substrS "handed" (pyLower heading) = false)
    (h1h1 : substrS "one-hand" (pyLower heading) = false)
    (h1h2 : substrS "one hand" (pyLower heading) = false)
    (h1h3 : substrS "1-hand" (pyLower heading) = false)
    (h1h4 : substrS "1 hand" (pyLower heading) = false)
    (h2h1 : substrS "two-hand" (pyLower heading) = false)
    (h2h2 : substrS "two hand" (pyLower heading) = false)
    (h2h3 : substrS "2-hand" (pyLower heading) = false)
    (h2h4 : substrS "2 hand" (pyLower heading) = false)
    (hmh1 : substrS "main hand" (pyLower heading) = false)
    (hmh2 : substrS "main-hand" (pyLower heading) = false)
    (hmh3 : substrS "mainhand" (pyLower heading) = false)
    (hmh4 : substrS "mainhands" (pyLower heading) = false)
    (hoh1 : substrS "off-hand" (pyLower heading) = false)
    (hoh2 : substrS "off hand" (pyLower heading) = false)
    (hoh3 : substrS "offhand" (pyLower heading) = false)
    (hoh4 : substrS "offhands" (pyLower heading) = false) :
    PW.section_slot_ids heading body = [10] := by
  rcases hhand with hh | hh <;>
    simp [PW.section_slot_ids, hhead, hneck, hshoulder, hback, hcloak, hchest,
      hwrist, hidol, hrelic, htotem, hlibram, hranged, hwand, hdw1, hdw2,
      hweapon, hhanded, h1h1, h1h2, h1h3, h1h4, h2h1, h2h2, h2h3, h2h4,
      hmh1, hmh2, hmh3, hmh4, hoh1, hoh2, hoh3, hoh4, hh]

/-- C8 witness: the scenario heading Gloves with an empty body. -/
theorem C8_witness :
    substrS "glove" (pyLower "Gloves") = true ∧
    PW.section_slot_ids "Gloves" "" = [10] :=
  ⟨by decide,
   C8_hands_classifier "Gloves" "" (Or.inr (by decide)) (by decide) (by decide)
     (by decide) (by decide) (by decide) (by decide) (by decide) (by decide)
     (by decide) (by decide) (by decide) (by decide) (by decide) (by decide)
     (by decide) (by decide) (by decide) (by decide) (by decide) (by decide)
     (by decide) (by decide) (by decide) (by decide) (by decide) (by decide)
     (by decide) (by decide) (by decide) (by decide) (by decide) (by decide)
     (by decide)⟩

/-- C8 counterexample: the heading Chest and Hands contains hand and none
of the claim's four weapon cues, yet the classifier returns the Chest
slot because the chest keyword is checked first — the claim as stated
demands Hands (id 10). -/
theorem C8_counterexample :
    PW.section_slot_ids "Chest and Hands" "" = [5] := by
  decide

/-! ## C10: replacement semantics of the numeric section loop -/

theorem alookup_assocSet {β : Type} (m : List (Nat × β)) (k : Nat) (v : β) (s : Nat) :
    alookup (assocSet m k v) s = if s = k then some v else alookup m s := by
  induction m with
  | nil => simp [assocSet, alookup]
  | cons p rest ih =>
    obtain ⟨a, b⟩ := p
    by_cases hak : a = k
    · subst hak
      simp only [assocSet, if_pos rfl]
      by_cases hs : s = a
      · subst hs
        simp [alookup]
      · simp [alookup, hs]
    · simp only [assocSet, if_neg hak]
      by_cases hs : s = a
      · subst hs
        have : ¬ s = k := fun h => hak h
        simp [alookup, this]
      · simp [alookup, hs, ih]

theorem alookup_foldl_assocSet (v : List Nat) (targets : List Nat) :
    ∀ (m : SlotMap) (s : Nat),
    alookup (targets.foldl (fun mm t => assocSet mm t v) m) s =
      if s ∈ targets then some v else alookup m s := by
  induction targets with
  | nil =>
    intro m s
    simp
  | cons t ts ih =>
    intro m s
    simp only [List.foldl_cons]
    rw [ih]
    by_cases hs : s ∈ ts
    · simp [hs]
    · rw [if_neg hs, alookup_assocSet]
      by_cases hst : s = t
      · subst hst
        simp
      · have : s ∉ t :: ts := by
          simp [List.mem_cons, hst, hs]
        simp [hst, this]

/-- C10: in the numeric section loop, the final binding of every slot id
is the ranked list of the last section, in document order, that
classifies to that id and yields a nonempty ranked list; a later
assignment replaces the earlier one rather than extending it, a section
with no ranked items makes no assignment, and a multi-id heading writes
the one shared ranked list to each of its target ids (all target ids of
that section receive the identical list, since the map value is
determined by the section alone). -/
theorem C10_last_section_wins (isMarkup : Bool) (sections : List (String × String))
    (s : Nat) :
    lookupSM (PW.parse_guide_slots_loop isMarkup sections) s =
      ((sections.filter (PW.contributes isMarkup s)).getLast?).map
        (fun sec => PW.secRanked isMarkup sec) := by
  induction sections using List.reverseRecOn with
  | nil => rfl
  | append_singleton secs sec ih =>
    unfold PW.parse_guide_slots_loop at ih ⊢
    rw [List.foldl_append, List.foldl_cons, List.foldl_nil, List.filter_append]
    by_cases hc : PW.contributes isMarkup s sec = true
    · have hf : List.filter (PW.contributes isMarkup s) [sec] = [sec] := by
        simp [hc]
      rw [hf]
      have hlast : ((List.filter (PW.contributes isMarkup s) secs) ++ [sec]).getLast? =
          some sec := by
        rw [List.getLast?_append_of_ne_nil _ (by simp : ([sec] : List (String × String)) ≠ [])]
        rfl
      rw [hlast]
      unfold PW.contributes at hc
      rw [Bool.and_eq_true, decide_eq_true_eq, decide_eq_true_eq] at hc
      obtain ⟨hmem, hne⟩ := hc
      have htne : PW.secTargets sec ≠ [] := by
        intro h0
        rw [h0] at hmem
        cases hmem
      unfold PW.secTargets at hmem htne
      unfold PW.secRanked at hne ⊢
      unfold PW.sectionStep
      rw [if_neg htne, if_neg hne]
      show alookup _ s = _
      rw [alookup_foldl_assocSet]
      rw [if_pos hmem]
      rfl
    · have hf : List.filter (PW.contributes isMarkup s) [sec] = [] := by
        simp only [List.filter, hc]
      rw [hf, List.append_nil, ← ih]
      unfold PW.sectionStep
      by_cases ht : PW.secTargets sec = []
      · unfold PW.secTargets at ht
        rw [if_pos ht]
      · by_cases hrk : PW.secRanked isMarkup sec = []
        · unfold PW.secTargets at ht
          unfold PW.secRanked at hrk
          rw [if_neg ht, if_pos hrk]
        · have hsmem : s ∉ PW.secTargets sec := by
            intro hmem
            apply hc
            unfold PW.contributes
            rw [Bool.and_eq_true, decide_eq_true_eq, decide_eq_true_eq]
            exact ⟨hmem, hrk⟩
          unfold PW.secTargets at ht hsmem
          unfold PW.secRanked at hrk
          rw [if_neg ht, if_neg hrk]
          show alookup _ s = _
          rw [alookup_foldl_assocSet]
          rw [if_neg hsmem]
          rfl

/-! ## C9: merge_slot_maps never mutates its inputs -/

theorem alookup_updAssoc_ne {β : Type} (k : Nat) (f : β → β) (r : Nat) (h : r ≠ k) :
    ∀ l : List (Nat × β), alookup (PyHeap.updAssoc l k f) r = alookup l r := by
  intro l
  induction l with
  | nil => rfl
  | cons p rest ih =>
    obtain ⟨a, b⟩ := p
    show alookup ((if a = k then (a, f b) else (a, b)) :: PyHeap.updAssoc rest k f) r
        = alookup ((a, b) :: rest) r
    by_cases hak : a = k
    · rw [if_pos hak]
      show (if r = a then some (f b) else alookup (PyHeap.updAssoc rest k f) r) =
        (if r = a then some b else alookup rest r)
      have hra : ¬ r = a := by rw [hak]; exact h
      rw [if_neg hra, if_neg hra]
      exact ih
    · rw [if_neg hak]
      show (if r = a then some b else alookup (PyHeap.updAssoc rest k f) r) =
        (if r = a then some b else alookup rest r)
      by_cases hra : r = a
      · rw [if_pos hra, if_pos hra]
      · rw [if_neg hra, if_neg hra]
        exact ih

theorem untouched_refl (n : Nat) (h : PyHeap) : PyHeap.Untouched n h h :=
  ⟨le_refl _, fun _ _ => ⟨rfl, rfl⟩⟩

theorem untouched_trans {n : Nat} {h1 h2 h3 : PyHeap}
    (a : PyHeap.Untouched n h1 h2) (b : PyHeap.Untouched n h2 h3) :
    PyHeap.Untouched n h1 h3 := by
  refine ⟨le_trans a.1 b.1, ?_⟩
  intro r hr
  have ha := a.2 r hr
  have hb := b.2 r hr
  exact ⟨hb.1.trans ha.1, hb.2.trans ha.2⟩

theorem untouched_allocList (n : Nat) (h : PyHeap) (hn : n ≤ h.next) :
    PyHeap.Untouched n h (PyHeap.allocList h).2 := by
  refine ⟨by simp [PyHeap.allocList], ?_⟩
  intro r hr
  constructor
  · show alookup ((h.next, []) :: h.lists) r = alookup h.lists r
    have : ¬ r = h.next := by omega
    simp [alookup, this]
  · rfl

theorem untouched_allocDict (n : Nat) (h : PyHeap) (hn : n ≤ h.next) :
    PyHeap.Untouched n h (PyHeap.allocDict h).2 := by
  refine ⟨by simp [PyHeap.allocDict], ?_⟩
  intro r hr
  constructor
  · rfl
  · show alookup ((h.next, []) :: h.dicts) r = alookup h.dicts r
    have : ¬ r = h.next := by omega
    simp [alookup, this]

theorem untouched_listAppend (n : Nat) (h : PyHeap) (t x : Nat) (ht : n ≤ t) :
    PyHeap.Untouched n h (PyHeap.listAppendH h t x) := by
  refine ⟨le_refl _, ?_⟩
  intro r hr
  have hrt : r ≠ t := by omega
  exact ⟨alookup_updAssoc_ne t (fun l => l ++ [x]) r hrt h.lists, rfl⟩

theorem untouched_dictSet (n : Nat) (h : PyHeap) (t k v : Nat) (ht : n ≤ t) :
    PyHeap.Untouched n h (PyHeap.dictSetH h t k v) := by
  refine ⟨le_refl _, ?_⟩
  intro r hr
  have hrt : r ≠ t := by omega
  exact ⟨rfl, alookup_updAssoc_ne t (fun d => assocSet d k v) r hrt h.dicts⟩

theorem untouched_appendUnique (n : Nat) (t : Nat) (items : List Nat) (ht : n ≤ t) :
    ∀ h : PyHeap, PyHeap.Untouched n h (PyHeap.appendUniqueItems t items h) := by
  induction items with
  | nil => intro h; exact untouched_refl n h
  | cons x xs ih =>
    intro h
    show PyHeap.Untouched n h
      (xs.foldl
        (fun hh item =>
          if item ∈ PyHeap.readList hh t then hh else PyHeap.listAppendH hh t item)
        (if x ∈ PyHeap.readList h t then h else PyHeap.listAppendH h t x))
    refine untouched_trans ?_ (ih _)
    by_cases hx : x ∈ PyHeap.readList h t
    · rw [if_pos hx]
      exact untouched_refl n h
    · rw [if_neg hx]
      exact untouched_listAppend n h t x ht

theorem untouched_mergeSlotFinish (n mergedRef slot ordRef : Nat) (h3 : PyHeap)
    (hm : n ≤ mergedRef) :
    PyHeap.Untouched n h3 (PyHeap.mergeSlotFinish mergedRef slot ordRef h3) := by
  unfold PyHeap.mergeSlotFinish
  by_cases hl : PyHeap.readList h3 ordRef = []
  · rw [if_pos hl]
    exact untouched_refl n h3
  · rw [if_neg hl]
    exact untouched_dictSet n h3 mergedRef slot ordRef hm

theorem untouched_mergeSlotStep (n : Nat) (prevD currD : List (Nat × Nat))
    (mergedRef : Nat) (hm : n ≤ mergedRef) (h : PyHeap) (slot : Nat)
    (hn : n ≤ h.next) :
    PyHeap.Untouched n h (PyHeap.mergeSlotStep prevD currD mergedRef h slot) := by
  unfold PyHeap.mergeSlotStep
  have hord : n ≤ (PyHeap.allocList h).1 := hn
  have u1 : PyHeap.Untouched n h (PyHeap.allocList h).2 :=
    untouched_allocList n h hn
  have u2 := untouched_appendUnique n (PyHeap.allocList h).1
    (PyHeap.slotItems currD (PyHeap.allocList h).2 slot) hord (PyHeap.allocList h).2
  have u12 := untouched_trans u1 u2
  have u3 := untouched_appendUnique n (PyHeap.allocList h).1
    (PyHeap.slotItems prevD
      (PyHeap.appendUniqueItems (PyHeap.allocList h).1
        (PyHeap.slotItems currD (PyHeap.allocList h).2 slot) (PyHeap.allocList h).2)
      slot)
    hord
    (PyHeap.appendUniqueItems (PyHeap.allocList h).1
      (PyHeap.slotItems currD (PyHeap.allocList h).2 slot) (PyHeap.allocList h).2)
  have u123 := untouched_trans u12 u3
  exact untouched_trans u123 (untouched_mergeSlotFinish n mergedRef slot
    (PyHeap.allocList h).1 _ hm)

theorem untouched_foldl_slots (n : Nat) (prevD currD : List (Nat × Nat))
    (mergedRef : Nat) (hm : n ≤ mergedRef) (slotIds : List Nat) :
    ∀ h : PyHeap, n ≤ h.next →
    PyHeap.Untouched n h
      (slotIds.foldl
        (fun hh slot => PyHeap.mergeSlotStep prevD currD mergedRef hh slot) h) := by
  induction slotIds with
  | nil => intro h _; exact untouched_refl n h
  | cons slot rest ih =>
    intro h hn
    simp only [List.foldl_cons]
    have u1 := untouched_mergeSlotStep n prevD currD mergedRef hm h slot hn
    refine untouched_trans u1 (ih _ ?_)
    exact le_trans hn u1.1

/-- C9: merge_slot_maps, run against the explicit store, never mutates any
pre-existing object: every list object and every dict object stored at a
reference allocated before the call — in particular both input dicts and
all the item lists they point to — holds exactly the same value
afterwards, and the returned map is a freshly allocated dict (its
reference is the pre-call allocation frontier, so it cannot alias any
pre-existing object). -/
theorem C9_merge_no_mutation (h : PyHeap) (p c r : Nat) (hr : r < h.next) :
    alookup (PyHeap.merge_slot_maps_heap h p c).1.lists r = alookup h.lists r ∧
    alookup (PyHeap.merge_slot_maps_heap h p c).1.dicts r = alookup h.dicts r ∧
    (PyHeap.merge_slot_maps_heap h p c).2 = h.next ∧
    h.next < (PyHeap.merge_slot_maps_heap h p c).1.next := by
  have u1 : PyHeap.Untouched h.next h (PyHeap.allocDict h).2 :=
    untouched_allocDict h.next h (le_refl _)
  have hnext1 : (PyHeap.allocDict h).2.next = h.next + 1 := rfl
  have u2 := untouched_foldl_slots h.next
    (PyHeap.readDict (PyHeap.allocDict h).2 p)
    (PyHeap.readDict (PyHeap.allocDict h).2 c)
    (PyHeap.allocDict h).1 (le_refl _)
    (dedupKeep
      ((PyHeap.readDict (PyHeap.allocDict h).2 p).map Prod.fst ++
       (PyHeap.readDict (PyHeap.allocDict h).2 c).map Prod.fst))
    (PyHeap.allocDict h).2 (by omega)
  have u := untouched_trans u1 u2
  have hres := u.2 r hr
  refine ⟨hres.1, hres.2, rfl, ?_⟩
  have h1 : (PyHeap.allocDict h).2.next ≤
      (PyHeap.merge_slot_maps_heap h p c).1.next := u2.1
  omega

/-- C9 witness: a store holding two item lists at references 0 and 1 and
two slot dicts at references 2 and 3; merging the dicts leaves all four
objects intact and returns the fresh reference 4. -/
theorem C9_witness :
    (0 : Nat) < (PyHeap.mk [(0, [1, 2]), (1, [2, 3])]
      [(2, [(7, 0)]), (3, [(7, 1)])] 4).next ∧
    (alookup (PyHeap.merge_slot_maps_heap
        (PyHeap.mk [(0, [1, 2]), (1, [2, 3])] [(2, [(7, 0)]), (3, [(7, 1)])] 4)
        2 3).1.lists 0 =
      alookup (PyHeap.mk [(0, [1, 2]), (1, [2, 3])]
        [(2, [(7, 0)]), (3, [(7, 1)])] 4).lists 0 ∧
    alookup (PyHeap.merge_slot_maps_heap
        (PyHeap.mk [(0, [1, 2]), (1, [2, 3])] [(2, [(7, 0)]), (3, [(7, 1)])] 4)
        2 3).1.dicts 0 =
      alookup (PyHeap.mk [(0, [1, 2]), (1, [2, 3])]
        [(2, [(7, 0)]), (3, [(7, 1)])] 4).dicts 0 ∧
    (PyHeap.merge_slot_maps_heap
        (PyHeap.mk [(0, [1, 2]), (1, [2, 3])] [(2, [(7, 0)]), (3, [(7, 1)])] 4)
        2 3).2 =
      (PyHeap.mk [(0, [1, 2]), (1, [2, 3])] [(2, [(7, 0)]), (3, [(7, 1)])] 4).next ∧
    (PyHeap.mk [(0, [1, 2]), (1, [2, 3])] [(2, [(7, 0)]), (3, [(7, 1)])] 4).next <
      (PyHeap.merge_slot_maps_heap
        (PyHeap.mk [(0, [1, 2]), (1, [2, 3])] [(2, [(7, 0)]), (3, [(7, 1)])] 4)
        2 3).1.next) :=
  ⟨by decide,
   C9_merge_no_mutation
     (PyHeap.mk [(0, [1, 2]), (1, [2, 3])] [(2, [(7, 0)]), (3, [(7, 1)])] 4)
     2 3 0 (by decide)⟩

end Biscore
